import Mathlib

/-!
# PWM glow demo (`main.c`, `gpioutils.c`): a shallow embedding

The program talks to the kernel only through `open`/`write`/`read`/`close` on sysfs
files and `usleep`.  The embedding records every such call in an event log and asks
a mocked file system (`Sysfs`) for the result of each `open` and `write`; the mock
may answer differently depending on everything that happened before.  A program
fragment returns a value, calls `exit`, or runs into undefined behaviour (`Res`).
The endless loop of `pwmGlow` is cut after a given number of iterations.

Console output (`printf`/`fprintf`) and `errno` are not part of the modelled state.
C strings are modelled by their contents (a `String` without the terminating NUL).

The program computes the ramp in `float`: that arithmetic is `binary32` (IEEE-754 single
precision, round to nearest even, every operation rounded to single precision).  The loop
is written over a record of operations (`Arith`) so that properties of its control flow
can be proved whatever the numbers are.  `exactArith` (rational numbers, step exactly
1/100) is not the arithmetic of the program: it is the idealisation in which the
specification describes the ramp, kept to compare that description with the program.
What the program does with numbers is stated for `binary32`.
-/

namespace PwmGlow

/-! ## Events, mocked file system, program monad -/

/-- One system call made by the program, with its result. -/
inductive Event where
  | sysOpen (path : String) (fd : Int)
  | sysWrite (path : String) (fd : Int) (data : String) (ret : Int)
  | sysRead (path : String) (fd : Int)
  | sysClose (fd : Int)
  | sleep (usec : Nat)
  deriving DecidableEq

/-- The mocked file system: the descriptor returned by `open` and the byte count
returned by `write`, each as a function of the history of earlier calls. -/
structure Sysfs where
  openRet : List Event → String → Int
  writeRet : List Event → String → Int → String → Int

/-- How a piece of the program ends: it returns a value, it calls `exit`, or it runs
into behaviour the C standard leaves undefined. -/
inductive Res (α : Type) where
  | ret (a : α)
  | halt (code : Int)
  | undef
  deriving DecidableEq

/-- A program fragment: given the mock and the history so far, a result and the
extended history. -/
def Prog (α : Type) : Type := Sysfs → List Event → Res α × List Event

/-- Sequencing; `exit` and undefined behaviour end the program. -/
def Prog.bind {α β : Type} (m : Prog α) (f : α → Prog β) : Prog β :=
  fun fs h =>
    match m fs h with
    | (Res.ret a, h1) => f a fs h1
    | (Res.halt c, h1) => (Res.halt c, h1)
    | (Res.undef, h1) => (Res.undef, h1)

instance : Monad Prog where
  pure a := fun _ h => (Res.ret a, h)
  bind := Prog.bind

/-- The call `open(path, ...)`. -/
def sysOpen (path : String) : Prog Int :=
  fun fs h => let fd := fs.openRet h path; (Res.ret fd, h ++ [Event.sysOpen path fd])

/-- The call `write(fd, data, strlen(data))`; `path` names the file `fd` was opened on. -/
def sysWrite (path : String) (fd : Int) (data : String) : Prog Int :=
  fun fs h =>
    let r := fs.writeRet h path fd data
    (Res.ret r, h ++ [Event.sysWrite path fd data r])

/-- The call `read(fd, buf, sizeof(buf))`; its result is only printed. -/
def sysRead (path : String) (fd : Int) : Prog Unit :=
  fun _ h => (Res.ret (), h ++ [Event.sysRead path fd])

/-- The call `close(fd)`. -/
def sysClose (fd : Int) : Prog Unit :=
  fun _ h => (Res.ret (), h ++ [Event.sysClose fd])

/-- The call `usleep(usec)`. -/
def usleep (usec : Nat) : Prog Unit :=
  fun _ h => (Res.ret (), h ++ [Event.sleep usec])

/-- The call `exit(code)`. -/
def exitWith {α : Type} (code : Int) : Prog α :=
  fun _ h => (Res.halt code, h)

/-- Undefined behaviour. -/
def undefinedBehaviour {α : Type} : Prog α :=
  fun _ h => (Res.undef, h)

/-! ## IEEE-754 binary32 -/

/-- A binary32 value.  A finite value is stored as the integer `u` with value
`u * 2^(-149)`: every finite binary32 number is an integer multiple of the smallest
subnormal `2^(-149)`.  The sign of zero is not represented (no operation of the
program distinguishes `-0.0` from `+0.0`). -/
inductive F32 where
  | fin (u : Int)
  | inf (neg : Bool)
  | nan
  deriving DecidableEq

/-- Number of binary digits of `n`, by repeated division: 64 digits at a time while
`n` has more than 64, then 8 at a time, then one at a time (`fuel` bounds the number
of divisions). -/
def bitLengthAux : Nat → Nat → Nat
  | 0, _ => 0
  | fuel + 1, n =>
    if n = 0 then 0
    else if 18446744073709551616 ≤ n then bitLengthAux fuel (n / 18446744073709551616) + 64
    else if 256 ≤ n then bitLengthAux fuel (n / 256) + 8
    else bitLengthAux fuel (n / 2) + 1

/-- Number of binary digits of `n`: `0` for `0`, and `k + 1` when `2^k ≤ n < 2^(k+1)`. -/
def bitLength (n : Nat) : Nat := bitLengthAux n n

namespace F32

/-- Round the real number `N / 2^s * 2^(-149)` to the nearest binary32 value, ties to
even: 24 significant bits, nothing finer than `2^(-149)`, and infinity when the rounded
magnitude reaches `2^128` (that is `2^128 * 2^149` units). -/
def round (N : Int) (s : Nat) : F32 :=
  let M := N.natAbs
  let t := max (bitLength M - 24) s
  let q := M / 2 ^ t
  let r := M % 2 ^ t
  let up : Bool :=
    decide (t ≠ 0) &&
      (decide (2 ^ (t - 1) < r) || (decide (r = 2 ^ (t - 1)) && decide (q % 2 = 1)))
  let mag := (if up then q + 1 else q) * 2 ^ (t - s)
  if 2 ^ 128 * 2 ^ 149 ≤ mag then inf (decide (N < 0))
  else fin (if N < 0 then -(mag : Int) else (mag : Int))

/-- Single-precision addition. -/
def add : F32 → F32 → F32
  | fin a, fin b => round (a + b) 0
  | fin _, inf n => inf n
  | inf n, fin _ => inf n
  | inf n, inf m => if n = m then inf n else nan
  | _, _ => nan

/-- Single-precision multiplication. -/
def mul : F32 → F32 → F32
  | fin a, fin b => round (a * b) 149
  | fin a, inf n => if a = 0 then nan else inf (xor (decide (a < 0)) n)
  | inf n, fin b => if b = 0 then nan else inf (xor n (decide (b < 0)))
  | inf n, inf m => inf (xor n m)
  | _, _ => nan

/-- The comparison `x <= y`; false when either side is a NaN. -/
def le : F32 → F32 → Bool
  | fin a, fin b => decide (a ≤ b)
  | fin _, inf n => !n
  | inf n, fin _ => n
  | inf n, inf m => n || !m
  | _, _ => false

/-- Conversion of an unsigned integer to `float`. -/
def ofNat (n : Nat) : F32 := round ((n : Int) * 2 ^ 149) 0

/-- Conversion of the `double` value `m * 2^(-e)` to `float`. -/
def ofDouble (m : Int) (e : Nat) : F32 := round (m * 2 ^ 149) e

/-- The conversion `(uint32_t)x`: the fractional part is discarded; the behaviour is
undefined (`none`) when the integral part is not a `uint32_t` value. -/
def toUInt32 : F32 → Option Nat
  | fin u =>
    let t := Int.tdiv u (2 ^ 149)
    if 0 ≤ t ∧ t < 4294967296 then some t.toNat else none
  | _ => none

end F32

/-- The `double` literal `0.01` is `5764607523034235 * 2^(-59)` (bit pattern
`0x3F847AE147AE147B`), the binary64 number nearest to 1/100. -/
def INCREMENT_mant : Int := 5764607523034235

/-- Binary exponent of the `double` literal `0.01`, see `INCREMENT_mant`. -/
def INCREMENT_exp : Nat := 59

/-! ## The arithmetic used by the ramp -/

/-- The operations and constants on `float` that `pwmGlow` uses, as a record, so that the
loop can be run on the arithmetic of the program (`binary32`) and properties of its
control flow can be stated for any arithmetic. -/
structure Arith (F : Type) where
  /-- The literal `0.0f`. -/
  zero : F
  /-- The constant `MIN_PERCENT` (`0.0`). -/
  MIN_PERCENT : F
  /-- The constant `MAX_PERCENT` (`1.0`). -/
  MAX_PERCENT : F
  /-- The constant `INCREMENT` (`0.01`) converted to `float`. -/
  INCREMENT : F
  /-- The expression `-INCREMENT` converted to `float`. -/
  NEG_INCREMENT : F
  /-- The sum `x + y` of two `float`s. -/
  add : F → F → F
  /-- The product `x * y` of two `float`s. -/
  mul : F → F → F
  /-- The conversion of a `uint32_t` to `float`. -/
  ofUInt32 : Nat → F
  /-- The conversion `(uint32_t)x`, `none` when its behaviour is undefined. -/
  toUInt32 : F → Option Nat
  /-- The comparison `x <= y`. -/
  le : F → F → Bool

/-- The arithmetic of the program: IEEE-754 single precision.  The constants `0.0`,
`1.0` and `0.01` are `double` literals; the comparisons are made in `double`, which holds
every `float` exactly, and the assignments convert to `float`. -/
def binary32 : Arith F32 where
  zero := F32.fin 0
  MIN_PERCENT := F32.fin 0
  MAX_PERCENT := F32.fin (2 ^ 149)
  INCREMENT := F32.ofDouble INCREMENT_mant INCREMENT_exp
  NEG_INCREMENT := F32.ofDouble (-INCREMENT_mant) INCREMENT_exp
  add := F32.add
  mul := F32.mul
  ofUInt32 := F32.ofNat
  toUInt32 := F32.toUInt32
  le := F32.le

/-- The idealised arithmetic of the specification, not that of the program: exact
rational numbers, the step exactly 1/100, no rounding and a conversion that is defined on
the whole ramp.  The program computes in `float` (`binary32`) and differs from this
idealisation from the fifth iteration on. -/
def exactArith : Arith ℚ where
  zero := 0
  MIN_PERCENT := 0
  MAX_PERCENT := 1
  INCREMENT := 1 / 100
  NEG_INCREMENT := -(1 / 100)
  add := fun x y => x + y
  mul := fun x y => x * y
  ofUInt32 := fun n => (n : ℚ)
  toUInt32 := fun x =>
    let t := Int.tdiv x.num (x.den : Int)
    if 0 ≤ t ∧ t < 4294967296 then some t.toNat else none
  le := fun x y => decide (x ≤ y)

/-! ## `gpioutils.c` -/

/-- The function `tolower` of the C locale, on character codes. -/
def tolower (c : Char) : Nat :=
  if 65 ≤ c.toNat ∧ c.toNat ≤ 90 then c.toNat + 32 else c.toNat

/-- The function `strcasecmp` on the contents of two C strings: the difference of the
first pair of lower-cased characters that differ (the end of a string counts as the
character code 0), and 0 when there is none. -/
def strcasecmp : List Char → List Char → Int
  | [], [] => 0
  | [], b :: _ => 0 - (tolower b : Int)
  | a :: _, [] => (tolower a : Int)
  | a :: s, b :: t =>
    if tolower a = tolower b then strcasecmp s t else (tolower a : Int) - (tolower b : Int)

/-- Path of the GPIO export file. -/
def exportPath : String := "/sys/class/gpio/export"

/-- Path of the GPIO unexport file. -/
def unexportPath : String := "/sys/class/gpio/unexport"

/-- The result of `sprintf(buffer, "/sys/class/gpio/gpio%d/direction", gpionum)`. -/
def directionPath (gpionum : Int) : String :=
  "/sys/class/gpio/gpio" ++ toString gpionum ++ "/direction"

/-- The result of `sprintf(buffer, "/sys/class/gpio/gpio%d/value", gpionum)`. -/
def valuePath (gpionum : Int) : String :=
  "/sys/class/gpio/gpio" ++ toString gpionum ++ "/value"

/-- The function `gpio_alloc`: 0 on success, 1 on failure. -/
def gpio_alloc (gpionum : Int) : Prog Int := do
  let fd ← sysOpen exportPath
  if fd = -1 then pure 1
  else do
    let buffer := toString gpionum
    let bytes ← sysWrite exportPath fd buffer
    if bytes ≠ (buffer.length : Int) then pure 1
    else do
      sysClose fd
      pure 0

/-- The function `gpio_dealloc`: 0 on success, 1 on failure. -/
def gpio_dealloc (gpionum : Int) : Prog Int := do
  let fd ← sysOpen unexportPath
  if fd = -1 then pure 1
  else do
    let buffer := toString gpionum
    let bytes ← sysWrite unexportPath fd buffer
    if bytes ≠ (buffer.length : Int) then pure 1
    else do
      sysClose fd
      pure 0

/-- The function `gpio_set_direction`: 0 on success, 1 on failure. -/
def gpio_set_direction (gpionum : Int) (direction : String) : Prog Int :=
  if strcasecmp direction.toList "in".toList ≠ 0 ∧
      strcasecmp direction.toList "out".toList ≠ 0 then pure 1
  else do
    let buffer := directionPath gpionum
    let fd ← sysOpen buffer
    if fd = -1 then pure 1
    else do
      let bytes ← sysWrite buffer fd direction
      if bytes ≠ (direction.length : Int) then pure 1
      else do
        sysClose fd
        pure 0

/-- The function `gpio_write_pin`: 0 on success, 1 on failure. -/
def gpio_write_pin (gpionum : Int) (value : String) : Prog Int :=
  if strcasecmp value.toList "0".toList ≠ 0 ∧
      strcasecmp value.toList "1".toList ≠ 0 then pure 1
  else do
    let buffer := valuePath gpionum
    let fd ← sysOpen buffer
    if fd = -1 then pure 1
    else do
      let bytes ← sysWrite buffer fd value
      if bytes ≠ (value.length : Int) then pure 1
      else do
        sysClose fd
        pure 0

/-! ## `main.c` -/

/-- The constant `INVERSE_POLARITY`. -/
def INVERSE_POLARITY : Nat := 0

/-- The function `error_exit`: release the three pins, ignoring the results, and
`exit(-1)`.  The message is only printed. -/
def error_exit {α : Type} (_msg : String) : Prog α := do
  let _ ← gpio_dealloc 20
  let _ ← gpio_dealloc 21
  let _ ← gpio_dealloc 68
  exitWith (-1)

/-- The function `setup`. -/
def setup : Prog Unit := do
  let r ← gpio_alloc 20
  if r ≠ 0 then error_exit "Allocating GPIO20" else pure ()
  let r ← gpio_set_direction 20 "out"
  if r ≠ 0 then error_exit "Setting GPIO20 direction" else pure ()
  let r ← gpio_write_pin 20 "0"
  if r ≠ 0 then error_exit "Setting GPIO20 to 0" else pure ()
  let r ← gpio_alloc 21
  if r ≠ 0 then error_exit "Allocating GPIO21" else pure ()
  let r ← gpio_set_direction 21 "in"
  if r ≠ 0 then error_exit "Setting GPIO21 direction" else pure ()
  let r ← gpio_alloc 68
  if r ≠ 0 then error_exit "Allocating GPIO68" else pure ()
  let r ← gpio_set_direction 68 "out"
  if r ≠ 0 then error_exit "Setting GPIO68 direction" else pure ()
  let r ← gpio_write_pin 68 "1"
  if r ≠ 0 then error_exit "Setting GPIO68 value" else pure ()

/-- Path of the PWM channel count. -/
def npwmPath : String := "/sys/class/pwm/pwmchip0/npwm"

/-- Path of the PWM5 period file. -/
def periodPath : String := "/sys/class/pwm/pwmchip0/pwm5/period"

/-- Path of the PWM5 polarity file. -/
def polarityPath : String := "/sys/class/pwm/pwmchip0/pwm5/polarity"

/-- Path of the PWM5 enable file. -/
def enablePath : String := "/sys/class/pwm/pwmchip0/pwm5/enable"

/-- Path of the PWM5 duty-cycle file. -/
def dutyPath : String := "/sys/class/pwm/pwmchip0/pwm5/duty_cycle"

/-- A `uint32_t` passed to the conversion `%d`: read as a two's complement `int`. -/
def asInt32 (n : Nat) : Int :=
  if n % 4294967296 < 2147483648 then ((n % 4294967296 : Nat) : Int)
  else ((n % 4294967296 : Nat) : Int) - 4294967296

/-- The local variables of `pwmGlow` that live across loop iterations. -/
structure LoopState (F : Type) where
  percentage : F
  increment : F
  duty : Nat
  cycle : Nat
  enabled : Int
  deriving DecidableEq

/-- The block of the loop body run when `percentage <= MIN_PERCENT` after the clamp
(`main.c` lines 264-287): the new values of `cycle` and `enabled`. -/
def bottomTouch (enableFd : Int) (cycle : Nat) (enabled : Int) : Prog (Nat × Int) :=
  if cycle ≥ 4 then do
    let enabled : Int := 0
    let buf := toString enabled
    let bytes ← sysWrite enablePath enableFd buf
    if bytes ≠ (buf.length : Int) then error_exit "Error writing PWN output enable"
    else pure ()
    pure (0, enabled)
  else do
    let enabled ←
      if enabled ≠ 1 then do
        let enabled : Int := 1
        let buf := toString enabled
        let bytes ← sysWrite enablePath enableFd buf
        if bytes ≠ (buf.length : Int) then error_exit "Error writing PWM output enable"
        else pure ()
        pure enabled
      else pure enabled
    pure ((cycle + 1) % 4294967296, enabled)

/-- One iteration of the `while (1)` loop of `pwmGlow`. -/
def loopBody {F : Type} (A : Arith F) (enableFd dutyFd : Int) (period : Nat)
    (s : LoopState F) : Prog (LoopState F) :=
  let percentage := A.add s.percentage s.increment
  match A.toUInt32 (A.mul percentage (A.ofUInt32 period)) with
  | none => undefinedBehaviour
  | some duty => do
    let buf := toString (asInt32 duty)
    let bytes ← sysWrite dutyPath dutyFd buf
    if bytes ≠ (buf.length : Int) then error_exit "Errro writing PWM duty cycle"
    else pure ()
    usleep 20000
    if A.le A.MAX_PERCENT percentage then
      pure { s with percentage := A.MAX_PERCENT, increment := A.NEG_INCREMENT, duty := duty }
    else if A.le percentage A.MIN_PERCENT then do
      let (cycle, enabled) ← bottomTouch enableFd s.cycle s.enabled
      pure { percentage := A.MIN_PERCENT, increment := A.INCREMENT, duty := duty,
             cycle := cycle, enabled := enabled }
    else
      pure { s with percentage := percentage, duty := duty }

/-- The first `n` iterations of the `while (1)` loop, from the state `s`. -/
def pwmLoop {F : Type} (A : Arith F) (enableFd dutyFd : Int) (period : Nat) :
    Nat → LoopState F → Prog (LoopState F)
  | 0, s => pure s
  | n + 1, s => do
    let s1 ← loopBody A enableFd dutyFd period s
    pwmLoop A enableFd dutyFd period n s1

/-- The function `pwmGlow`, with its endless loop cut after `n` iterations: the
result is the state of the local variables at that point. -/
def pwmGlow {F : Type} (A : Arith F) (n : Nat) : Prog (LoopState F) := do
  let fd ← sysOpen npwmPath
  if fd < 0 then error_exit "Error opening number of PWMs" else pure ()
  sysRead npwmPath fd
  sysClose fd
  let fd ← sysOpen periodPath
  if fd < 0 then error_exit "Error opening PWM5 period" else pure ()
  let period : Nat := 200 * 1000
  let buf := toString (asInt32 period)
  let bytes ← sysWrite periodPath fd buf
  if bytes ≠ (buf.length : Int) then error_exit "Error setting PWM period" else pure ()
  sysClose fd
  let fd ← sysOpen polarityPath
  if fd < 0 then error_exit "Error opening PWM5 polarity" else pure ()
  let buf := if INVERSE_POLARITY = 1 then "inversed" else "normal"
  let bytes ← sysWrite polarityPath fd buf
  if bytes ≠ (buf.length : Int) then error_exit "Error setting PWM polarity" else pure ()
  sysRead polarityPath fd
  sysClose fd
  let enableFd ← sysOpen enablePath
  if enableFd < 0 then error_exit "Error opening PWM enable" else pure ()
  let enabled : Int := 1
  let buf := toString enabled
  let bytes ← sysWrite enablePath enableFd buf
  if bytes ≠ (buf.length : Int) then error_exit "Error enabling PWN output signal"
  else pure ()
  let dutyFd ← sysOpen dutyPath
  if dutyFd < 0 then error_exit "Error opening PWM duty cycle" else pure ()
  let percentage := A.zero
  let increment := A.INCREMENT
  match A.toUInt32 (A.mul percentage (A.ofUInt32 period)) with
  | none => undefinedBehaviour
  | some duty =>
    pwmLoop A enableFd dutyFd period n
      { percentage := percentage, increment := increment, duty := duty,
        cycle := 0, enabled := enabled }

/-- The function `main`, with the loop of `pwmGlow` cut after `n` iterations. -/
def main {F : Type} (A : Arith F) (n : Nat) : Prog (LoopState F) := do
  setup
  pwmGlow A n

/-- A mock on which every `open` returns descriptor 3 and every `write` transfers all
the bytes it is given. -/
def Sysfs.allOk : Sysfs where
  openRet := fun _ _ => 3
  writeRet := fun _ _ _ data => (data.length : Int)

/-! ## Notions used to state the properties -/

/-- Equality of two strings ignoring the case of the basic latin letters, stated with
the library function `Char.toLower` (the one behind `String.toLower`) rather than with
`strcasecmp`. -/
def equalIgnoringCase (a b : String) : Prop :=
  a.toList.map Char.toLower = b.toList.map Char.toLower

instance (a b : String) : Decidable (equalIgnoringCase a b) := by
  unfold equalIgnoringCase
  infer_instance

/-- A C string holds no NUL character. -/
def IsCString (s : String) : Prop := ∀ c ∈ s.toList, c.toNat ≠ 0

instance (s : String) : Decidable (IsCString s) := by
  unfold IsCString
  infer_instance

/-- A system call without its descriptor and return value. -/
inductive Call where
  | opened (path : String)
  | wrote (path : String) (data : String)
  | readFrom (path : String)
  | closed
  | slept (usec : Nat)
  deriving DecidableEq

/-- The call an event records. -/
def Event.call : Event → Call
  | Event.sysOpen path _ => Call.opened path
  | Event.sysWrite path _ data _ => Call.wrote path data
  | Event.sysRead path _ => Call.readFrom path
  | Event.sysClose _ => Call.closed
  | Event.sleep usec => Call.slept usec

/-- On this mock every `open` in `gpioutils.c` and `main.c` succeeds (the descriptor is
not negative) and every `write` transfers all the bytes it is given. -/
def Sysfs.AllSucceed (fs : Sysfs) : Prop :=
  (∀ h path, 0 ≤ fs.openRet h path) ∧
  (∀ h path fd data, fs.writeRet h path fd data = (data.length : Int))

/-- The triangular wave in hundredths: `i mod 200` on the way up (up to 100), and
`200 - i mod 200` on the way down. -/
def triangle (i : Nat) : Nat := if i % 200 ≤ 100 then i % 200 else 200 - i % 200

/-- The state of the loop variables after `i` iterations, as the triangular wave
predicts it for exact arithmetic. -/
def exactState (i : Nat) : LoopState ℚ where
  percentage := (triangle i : ℚ) / 100
  increment := if i % 200 < 100 then 1 / 100 else -(1 / 100)
  duty := 2000 * triangle i
  cycle := (i / 200) % 5
  enabled := if 1 ≤ i / 200 ∧ (i / 200) % 5 = 0 then 0 else 1

/-- The strings written to the enable file at the bottom-touch number `k` (counted from
1): "0" when `k` is a multiple of 5, "1" at the one after that, nothing otherwise. -/
def touchData (k : Nat) : List String :=
  if k % 5 = 0 then ["0"] else if k % 5 = 1 ∧ k ≠ 1 then ["1"] else []

/-- The writes to the enable file at the bottom-touch number `k` (counted from 1). -/
def touchEvents (enableFd : Int) (k : Nat) : List Event :=
  if k % 5 = 0 then [Event.sysWrite enablePath enableFd "0" 1]
  else if k % 5 = 1 ∧ k ≠ 1 then [Event.sysWrite enablePath enableFd "1" 1]
  else []

/-- The writes to the enable file that the triangular wave predicts for iteration `i`:
those of the bottom-touch number `i / 200` when `i` is a multiple of 200. -/
def exactEnableEvents (enableFd : Int) (i : Nat) : List Event :=
  if i % 200 = 0 then touchEvents enableFd (i / 200) else []

/-- The strings written to the enable file in the `n` iterations after iteration `i`,
as the triangular wave predicts them. -/
def exactEnableData : Nat → Nat → List String
  | _, 0 => []
  | i, n + 1 =>
    (if (i + 1) % 200 = 0 then touchData ((i + 1) / 200) else []) ++ exactEnableData (i + 1) n

/-- The block `bottomTouch` run `n` times in a row, each time on the counter and the
flag that the previous run left: `n` consecutive bottom-touches, seen from the variables
`cycle` and `enabled` (no other iteration of the loop changes them). -/
def touches (enableFd : Int) : Nat → Nat → Int → Prog (Nat × Int)
  | 0, cycle, enabled => pure (cycle, enabled)
  | n + 1, cycle, enabled => do
    let r ← bottomTouch enableFd cycle enabled
    touches enableFd n r.1 r.2

/-- The writes to the enable file at the bottom-touches number `m + 1`, ..., `m + n`. -/
def touchTrace (enableFd : Int) : Nat → Nat → List Event
  | _, 0 => []
  | m, n + 1 => touchEvents enableFd (m + 1) ++ touchTrace enableFd (m + 1) n

/-- The system calls that the triangular wave predicts for iteration `i`. -/
def exactEvents (enableFd dutyFd : Int) (i : Nat) : List Event :=
  [Event.sysWrite dutyPath dutyFd (toString (2000 * triangle i))
      ((toString (2000 * triangle i)).length : Int),
    Event.sleep 20000] ++ exactEnableEvents enableFd i

/-- The system calls that the triangular wave predicts for the `n` iterations after
iteration `i`. -/
def exactTrace (enableFd dutyFd : Int) : Nat → Nat → List Event
  | _, 0 => []
  | i, n + 1 => exactEvents enableFd dutyFd (i + 1) ++ exactTrace enableFd dutyFd (i + 1) n

/-- The string a call writes to the file `path`, if it is such a write. -/
def Call.writtenTo (path : String) : Call → Option String
  | Call.wrote p data => if p = path then some data else none
  | _ => none

/-- The strings written to the file `path`, in order. -/
def writesTo (path : String) (log : List Event) : List String :=
  (log.map Event.call).filterMap (Call.writtenTo path)

/-- The iteration of the loop that starts in state `s` takes the branch
`percentage >= MAX_PERCENT` of the bound check. -/
def reachesTop {F : Type} (A : Arith F) (s : LoopState F) : Bool :=
  A.le A.MAX_PERCENT (A.add s.percentage s.increment)

/-- The iteration of the loop that starts in state `s` takes the branch
`percentage <= MIN_PERCENT` of the bound check (a bottom-touch). -/
def reachesBottom {F : Type} (A : Arith F) (s : LoopState F) : Bool :=
  !A.le A.MAX_PERCENT (A.add s.percentage s.increment) &&
    A.le (A.add s.percentage s.increment) A.MIN_PERCENT

/-- The system calls of `pwmGlow` before its loop, when nothing fails. -/
def preambleCalls : List Call :=
  [Call.opened npwmPath, Call.readFrom npwmPath, Call.closed,
   Call.opened periodPath, Call.wrote periodPath "200000", Call.closed,
   Call.opened polarityPath, Call.wrote polarityPath "normal", Call.readFrom polarityPath,
   Call.closed,
   Call.opened enablePath, Call.wrote enablePath "1",
   Call.opened dutyPath]

/-- The loop variables of `pwmGlow` on entry to the loop. -/
def initialState {F : Type} (A : Arith F) (duty : Nat) : LoopState F where
  percentage := A.zero
  increment := A.INCREMENT
  duty := duty
  cycle := 0
  enabled := 1

/-- The three calls of `gpio_dealloc` that `error_exit` makes, on their own. -/
def releasePins : Prog Unit := do
  let _ ← gpio_dealloc 20
  let _ ← gpio_dealloc 21
  let _ ← gpio_dealloc 68
  pure ()

/-- A `write` issued by `setup` or `pwmGlow` (to any file but the unexport file, which
only `gpio_dealloc` writes) that did not return the number of bytes requested. -/
def Event.FailedWrite : Event → Prop
  | Event.sysWrite path _ data ret => path ≠ unexportPath ∧ ret ≠ (data.length : Int)
  | _ => False

/-- No event of the list is a failed write of `setup` or `pwmGlow`. -/
def NoFailedWrite (evs : List Event) : Prop := ∀ e ∈ evs, ¬ e.FailedWrite

/-- Outcome of a program fragment that checks its own writes, started with history
`h`: either no write of it failed, or one did and the fragment went straight to the
release of the pins and `exit(-1)`. -/
def Checked {α : Type} (fs : Sysfs) (h : List Event) (r : Res α × List Event) : Prop :=
  (∃ evs, r.2 = h ++ evs ∧ NoFailedWrite evs) ∨
  (∃ evs w, w.FailedWrite ∧ NoFailedWrite evs ∧ r.1 = Res.halt (-1) ∧
    r.2 = (releasePins fs (h ++ evs ++ [w])).2)

/-- Outcome of a function of `gpioutils.c`, started with history `h`: it returns a
status, and when a write of it failed, that write is its last system call and the
status is 1. -/
def Reported (h : List Event) (r : Res Int × List Event) : Prop :=
  (∃ evs v, r = (Res.ret v, h ++ evs) ∧ NoFailedWrite evs) ∨
  (∃ evs w, w.FailedWrite ∧ NoFailedWrite evs ∧ r = (Res.ret 1, h ++ evs ++ [w]))

/-- A mock on which every `open` returns descriptor 3 and every `write` transfers
nothing. -/
def Sysfs.noWrite : Sysfs where
  openRet := fun _ _ => 3
  writeRet := fun _ _ _ _ => 0

/-! # Properties -/

/-! ## Running programs -/

theorem pure_run {α : Type} (a : α) (fs : Sysfs) (h : List Event) :
    (pure a : Prog α) fs h = (Res.ret a, h) := rfl

theorem bind_run {α β : Type} (m : Prog α) (f : α → Prog β) (fs : Sysfs) (h : List Event) :
    (m >>= f) fs h =
      match m fs h with
      | (Res.ret a, h1) => f a fs h1
      | (Res.halt c, h1) => (Res.halt c, h1)
      | (Res.undef, h1) => (Res.undef, h1) := rfl

theorem bind_ret {α β : Type} {m : Prog α} {f : α → Prog β} {fs : Sysfs} {h h1 : List Event}
    {a : α} (hm : m fs h = (Res.ret a, h1)) : (m >>= f) fs h = f a fs h1 := by
  rw [bind_run, hm]

theorem bind_halt {α β : Type} {m : Prog α} {f : α → Prog β} {fs : Sysfs} {h h1 : List Event}
    {c : Int} (hm : m fs h = (Res.halt c, h1)) : (m >>= f) fs h = (Res.halt c, h1) := by
  rw [bind_run, hm]

theorem toNat_ofNat_small (n : Nat) (hn : n < 55296) : (Char.ofNat n).toNat = n := by
  unfold Char.ofNat
  have hv : n.isValidChar := Or.inl hn
  rw [dif_pos hv]
  show (Char.ofNatAux n hv).val.toNat = n
  unfold Char.ofNatAux
  simp [UInt32.toNat]

theorem tolower_eq (c : Char) : tolower c = (Char.toLower c).toNat := by
  unfold tolower Char.toLower
  by_cases hc : 65 ≤ c.toNat ∧ c.toNat ≤ 90
  · have hc2 : c.toNat ≥ 65 ∧ c.toNat ≤ 90 := hc
    simp only [hc, hc2, and_self, if_true]
    rw [toNat_ofNat_small _ (by omega)]
  · have hc2 : ¬ (c.toNat ≥ 65 ∧ c.toNat ≤ 90) := hc
    simp only [hc, hc2, if_false]

theorem toNat_injective {a b : Char} (h : a.toNat = b.toNat) : a = b := by
  apply Char.ext
  apply UInt32.ext
  exact h

theorem tolower_eq_iff (a b : Char) : tolower a = tolower b ↔ a.toLower = b.toLower := by
  rw [tolower_eq, tolower_eq]
  exact ⟨toNat_injective, fun h => by rw [h]⟩

theorem tolower_ne_zero (c : Char) (hc : c.toNat ≠ 0) : tolower c ≠ 0 := by
  unfold tolower
  split <;> omega

theorem strcasecmp_eq_zero_iff (a b : List Char) (ha : ∀ c ∈ a, c.toNat ≠ 0)
    (hb : ∀ c ∈ b, c.toNat ≠ 0) :
    strcasecmp a b = 0 ↔ a.map Char.toLower = b.map Char.toLower := by
  induction a generalizing b with
  | nil =>
    cases b with
    | nil => simp [strcasecmp]
    | cons y t =>
      have hy := tolower_ne_zero y (hb y (by simp))
      simp [strcasecmp]
      omega
  | cons x s ih =>
    cases b with
    | nil =>
      have hx := tolower_ne_zero x (ha x (by simp))
      simp [strcasecmp]
      omega
    | cons y t =>
      have ih1 := ih t (fun c hc => ha c (by simp [hc])) (fun c hc => hb c (by simp [hc]))
      by_cases hxy : tolower x = tolower y
      · have hl := (tolower_eq_iff x y).1 hxy
        simp [strcasecmp, hxy, ih1, hl]
      · have hl : ¬ x.toLower = y.toLower := fun h => hxy ((tolower_eq_iff x y).2 h)
        simp [strcasecmp, hxy, hl]
        omega

theorem strcasecmp_iff (s t : String) (hs : IsCString s) (ht : IsCString t) :
    strcasecmp s.toList t.toList = 0 ↔ equalIgnoringCase s t :=
  strcasecmp_eq_zero_iff _ _ hs ht

theorem strcasecmp_digit_iff (s : String) (d : Char) (hs : IsCString s)
    (hd : 48 ≤ d.toNat ∧ d.toNat ≤ 57) :
    strcasecmp s.toList [d] = 0 ↔ s = String.mk [d] := by
  have hd1 : tolower d = d.toNat := by unfold tolower; split <;> omega
  have hd2 : tolower d ≠ 0 := by omega
  obtain ⟨l⟩ := s
  show strcasecmp l [d] = 0 ↔ _
  match l, hs with
  | [], _ =>
    have : strcasecmp [] [d] ≠ 0 := by
      simp only [strcasecmp]
      omega
    simp only [this, false_iff]
    intro hh
    have := congrArg String.data hh
    simp at this
  | [c], _ =>
    by_cases hcd : tolower c = tolower d
    · have : c = d := by
        apply toNat_injective
        rw [hd1] at hcd
        unfold tolower at hcd
        split at hcd <;> omega
      simp [strcasecmp, this]
    · have hne : c ≠ d := fun hh => hcd (by rw [hh])
      have : strcasecmp [c] [d] ≠ 0 := by
        simp only [strcasecmp, hcd, if_false]
        omega
      simp only [this, false_iff]
      intro hh
      have := congrArg String.data hh
      simp at this
      exact hne this
  | c :: e :: t, hs =>
    have he := tolower_ne_zero e (hs e (by simp))
    have : strcasecmp (c :: e :: t) [d] ≠ 0 := by
      by_cases hcd : tolower c = tolower d
      · simp only [strcasecmp, hcd, if_true]
        omega
      · simp only [strcasecmp, hcd, if_false]
        omega
    simp only [this, false_iff]
    intro hh
    have := congrArg String.data hh
    simp at this

theorem equalIgnoringCase_iff_toLower (a b : String) :
    equalIgnoringCase a b ↔ a.toLower = b.toLower := by
  unfold equalIgnoringCase String.toLower
  rw [String.map_eq, String.map_eq]
  constructor
  · intro h
    show String.mk _ = String.mk _
    rw [show a.1 = a.toList from rfl, show b.1 = b.toList from rfl, h]
  · intro h
    injection h

/-! ## Argument validation of `gpio_set_direction` and `gpio_write_pin` -/

/-- C7: `gpio_set_direction` called with a direction string (a C string) that is not
equal, ignoring case, to "in" or "out" returns 1 and makes no system call at all; called
with a string that is equal to one of them ignoring case, its first system call is the
`open` of the direction file of the pin. -/
theorem gpio_set_direction_validation (gpionum : Int) (direction : String) (fs : Sysfs)
    (h : List Event) (hc : IsCString direction) :
    (¬ (equalIgnoringCase direction "in" ∨ equalIgnoringCase direction "out") →
      gpio_set_direction gpionum direction fs h = (Res.ret 1, h)) ∧
    ((equalIgnoringCase direction "in" ∨ equalIgnoringCase direction "out") →
      ∃ rest, (gpio_set_direction gpionum direction fs h).2 =
        h ++ Event.sysOpen (directionPath gpionum) (fs.openRet h (directionPath gpionum))
          :: rest) := by
  have hin : IsCString "in" := by decide
  have hout : IsCString "out" := by decide
  have e1 := strcasecmp_iff direction "in" hc hin
  have e2 := strcasecmp_iff direction "out" hc hout
  constructor
  · intro hne
    have c1 : strcasecmp direction.toList "in".toList ≠ 0 := fun hh => hne (Or.inl (e1.1 hh))
    have c2 : strcasecmp direction.toList "out".toList ≠ 0 := fun hh => hne (Or.inr (e2.1 hh))
    unfold gpio_set_direction
    rw [if_pos ⟨c1, c2⟩]
    rfl
  · intro heq
    have c : ¬ (strcasecmp direction.toList "in".toList ≠ 0 ∧
        strcasecmp direction.toList "out".toList ≠ 0) := by
      rintro ⟨c1, c2⟩
      rcases heq with hh | hh
      · exact c1 (e1.2 hh)
      · exact c2 (e2.2 hh)
    unfold gpio_set_direction
    rw [if_neg c]
    simp only [bind_run, sysOpen]
    by_cases hfd : fs.openRet h (directionPath gpionum) = -1
    · simp only [hfd, if_true, pure_run]
      exact ⟨[], rfl⟩
    · simp only [hfd, if_false, bind_run, sysWrite]
      split
      · simp only [pure_run, List.append_assoc, List.singleton_append]
        exact ⟨_, rfl⟩
      · simp only [bind_run, sysClose, pure_run, List.append_assoc, List.singleton_append]
        exact ⟨_, rfl⟩

/-- Witness for C7: "OuT" passes the validation and the pin's direction file is opened;
"up" is rejected without any system call. -/
theorem gpio_set_direction_validation_witness :
    (∃ rest, (gpio_set_direction 20 "OuT" Sysfs.allOk []).2 =
      [] ++ Event.sysOpen (directionPath 20) (Sysfs.allOk.openRet [] (directionPath 20)) :: rest) ∧
    gpio_set_direction 20 "up" Sysfs.allOk [] = (Res.ret 1, []) :=
  ⟨(gpio_set_direction_validation 20 "OuT" Sysfs.allOk [] (by decide)).2 (Or.inr (by decide)),
   (gpio_set_direction_validation 20 "up" Sysfs.allOk [] (by decide)).1 (by decide)⟩

/-- C8: `gpio_write_pin` called with a value string (a C string) other than "0" and
"1" returns 1 and makes no system call at all; called with "0" or "1", its first system
call is the `open` of the value file of the pin. -/
theorem gpio_write_pin_validation (gpionum : Int) (value : String) (fs : Sysfs)
    (h : List Event) (hc : IsCString value) :
    ((value ≠ "0" ∧ value ≠ "1") → gpio_write_pin gpionum value fs h = (Res.ret 1, h)) ∧
    ((value = "0" ∨ value = "1") →
      ∃ rest, (gpio_write_pin gpionum value fs h).2 =
        h ++ Event.sysOpen (valuePath gpionum) (fs.openRet h (valuePath gpionum)) :: rest) := by
  have e1 : strcasecmp value.toList "0".toList = 0 ↔ value = "0" :=
    strcasecmp_digit_iff value (Char.ofNat 48) hc (by decide)
  have e2 : strcasecmp value.toList "1".toList = 0 ↔ value = "1" :=
    strcasecmp_digit_iff value (Char.ofNat 49) hc (by decide)
  constructor
  · rintro ⟨n0, n1⟩
    have c1 : strcasecmp value.toList "0".toList ≠ 0 := fun hh => n0 (e1.1 hh)
    have c2 : strcasecmp value.toList "1".toList ≠ 0 := fun hh => n1 (e2.1 hh)
    unfold gpio_write_pin
    rw [if_pos ⟨c1, c2⟩]
    rfl
  · intro heq
    have c : ¬ (strcasecmp value.toList "0".toList ≠ 0 ∧
        strcasecmp value.toList "1".toList ≠ 0) := by
      rintro ⟨c1, c2⟩
      rcases heq with hh | hh
      · exact c1 (e1.2 hh)
      · exact c2 (e2.2 hh)
    unfold gpio_write_pin
    rw [if_neg c]
    simp only [bind_run, sysOpen]
    by_cases hfd : fs.openRet h (valuePath gpionum) = -1
    · simp only [hfd, if_true, pure_run]
      exact ⟨[], rfl⟩
    · simp only [hfd, if_false, bind_run, sysWrite]
      split
      · simp only [pure_run, List.append_assoc, List.singleton_append]
        exact ⟨_, rfl⟩
      · simp only [bind_run, sysClose, pure_run, List.append_assoc, List.singleton_append]
        exact ⟨_, rfl⟩

/-- Witness for C8: "1" passes the validation and the pin's value file is opened; "2"
and "on" are rejected without any system call. -/
theorem gpio_write_pin_validation_witness :
    (∃ rest, (gpio_write_pin 68 "1" Sysfs.allOk []).2 =
      [] ++ Event.sysOpen (valuePath 68) (Sysfs.allOk.openRet [] (valuePath 68)) :: rest) ∧
    gpio_write_pin 68 "2" Sysfs.allOk [] = (Res.ret 1, []) ∧
    gpio_write_pin 68 "on" Sysfs.allOk [] = (Res.ret 1, []) :=
  ⟨(gpio_write_pin_validation 68 "1" Sysfs.allOk [] (by decide)).2 (Or.inr rfl),
   (gpio_write_pin_validation 68 "2" Sysfs.allOk [] (by decide)).1 (by decide),
   (gpio_write_pin_validation 68 "on" Sysfs.allOk [] (by decide)).1 (by decide)⟩

/-! ## The setup sequence -/

theorem allSucceed_allOk : Sysfs.allOk.AllSucceed :=
  ⟨fun _ _ => by show (0 : Int) ≤ 3; decide, fun _ _ _ _ => rfl⟩

theorem gpio_alloc_ok (fs : Sysfs) (hfs : fs.AllSucceed) (gpionum : Int) (h : List Event) :
    ∃ evs, gpio_alloc gpionum fs h = (Res.ret 0, h ++ evs) ∧
      evs.map Event.call =
        [Call.opened exportPath, Call.wrote exportPath (toString gpionum), Call.closed] := by
  have ho := hfs.1 h exportPath
  have hne : ¬ fs.openRet h exportPath = -1 := by omega
  refine ⟨[Event.sysOpen exportPath (fs.openRet h exportPath),
    Event.sysWrite exportPath (fs.openRet h exportPath) (toString gpionum)
      ((toString gpionum).length : Int), Event.sysClose (fs.openRet h exportPath)], ?_, rfl⟩
  simp [gpio_alloc, bind_run, sysOpen, sysWrite, sysClose, pure_run, hne, hfs.2]

theorem gpio_set_direction_ok (fs : Sysfs) (hfs : fs.AllSucceed) (gpionum : Int)
    (direction : String)
    (hv : ¬ (strcasecmp direction.toList "in".toList ≠ 0 ∧
      strcasecmp direction.toList "out".toList ≠ 0)) (h : List Event) :
    ∃ evs, gpio_set_direction gpionum direction fs h = (Res.ret 0, h ++ evs) ∧
      evs.map Event.call =
        [Call.opened (directionPath gpionum), Call.wrote (directionPath gpionum) direction,
          Call.closed] := by
  have ho := hfs.1 h (directionPath gpionum)
  have hne : ¬ fs.openRet h (directionPath gpionum) = -1 := by omega
  refine ⟨[Event.sysOpen (directionPath gpionum) (fs.openRet h (directionPath gpionum)),
    Event.sysWrite (directionPath gpionum) (fs.openRet h (directionPath gpionum)) direction
      (direction.length : Int), Event.sysClose (fs.openRet h (directionPath gpionum))], ?_, rfl⟩
  unfold gpio_set_direction
  rw [if_neg hv]
  simp [bind_run, sysOpen, sysWrite, sysClose, pure_run, hne, hfs.2]

theorem gpio_write_pin_ok (fs : Sysfs) (hfs : fs.AllSucceed) (gpionum : Int)
    (value : String)
    (hv : ¬ (strcasecmp value.toList "0".toList ≠ 0 ∧
      strcasecmp value.toList "1".toList ≠ 0)) (h : List Event) :
    ∃ evs, gpio_write_pin gpionum value fs h = (Res.ret 0, h ++ evs) ∧
      evs.map Event.call =
        [Call.opened (valuePath gpionum), Call.wrote (valuePath gpionum) value,
          Call.closed] := by
  have ho := hfs.1 h (valuePath gpionum)
  have hne : ¬ fs.openRet h (valuePath gpionum) = -1 := by omega
  refine ⟨[Event.sysOpen (valuePath gpionum) (fs.openRet h (valuePath gpionum)),
    Event.sysWrite (valuePath gpionum) (fs.openRet h (valuePath gpionum)) value
      (value.length : Int), Event.sysClose (fs.openRet h (valuePath gpionum))], ?_, rfl⟩
  unfold gpio_write_pin
  rw [if_neg hv]
  simp [bind_run, sysOpen, sysWrite, sysClose, pure_run, hne, hfs.2]

/-- C9: on a mock where every `open` and every `write` succeeds in full, `setup` returns
normally and makes exactly these system calls, in this order: export 20 (the decimal
string "20" written to the export file), direction of 20 := "out", value of 20 := "0",
export 21, direction of 21 := "in", export 68, direction of 68 := "out",
value of 68 := "1"; nothing is written to the unexport file. -/
theorem setup_sequence (fs : Sysfs) (hfs : fs.AllSucceed) :
    (setup fs []).1 = Res.ret () ∧
    (setup fs []).2.map Event.call =
      [Call.opened "/sys/class/gpio/export", Call.wrote "/sys/class/gpio/export" "20",
        Call.closed,
       Call.opened "/sys/class/gpio/gpio20/direction",
        Call.wrote "/sys/class/gpio/gpio20/direction" "out", Call.closed,
       Call.opened "/sys/class/gpio/gpio20/value",
        Call.wrote "/sys/class/gpio/gpio20/value" "0", Call.closed,
       Call.opened "/sys/class/gpio/export", Call.wrote "/sys/class/gpio/export" "21",
        Call.closed,
       Call.opened "/sys/class/gpio/gpio21/direction",
        Call.wrote "/sys/class/gpio/gpio21/direction" "in", Call.closed,
       Call.opened "/sys/class/gpio/export", Call.wrote "/sys/class/gpio/export" "68",
        Call.closed,
       Call.opened "/sys/class/gpio/gpio68/direction",
        Call.wrote "/sys/class/gpio/gpio68/direction" "out", Call.closed,
       Call.opened "/sys/class/gpio/gpio68/value",
        Call.wrote "/sys/class/gpio/gpio68/value" "1", Call.closed] := by
  obtain ⟨e1, r1, c1⟩ := gpio_alloc_ok fs hfs 20 []
  obtain ⟨e2, r2, c2⟩ := gpio_set_direction_ok fs hfs 20 "out" (by decide) ([] ++ e1)
  obtain ⟨e3, r3, c3⟩ := gpio_write_pin_ok fs hfs 20 "0" (by decide) ([] ++ e1 ++ e2)
  obtain ⟨e4, r4, c4⟩ := gpio_alloc_ok fs hfs 21 ([] ++ e1 ++ e2 ++ e3)
  obtain ⟨e5, r5, c5⟩ := gpio_set_direction_ok fs hfs 21 "in" (by decide)
    ([] ++ e1 ++ e2 ++ e3 ++ e4)
  obtain ⟨e6, r6, c6⟩ := gpio_alloc_ok fs hfs 68 ([] ++ e1 ++ e2 ++ e3 ++ e4 ++ e5)
  obtain ⟨e7, r7, c7⟩ := gpio_set_direction_ok fs hfs 68 "out" (by decide)
    ([] ++ e1 ++ e2 ++ e3 ++ e4 ++ e5 ++ e6)
  obtain ⟨e8, r8, c8⟩ := gpio_write_pin_ok fs hfs 68 "1" (by decide)
    ([] ++ e1 ++ e2 ++ e3 ++ e4 ++ e5 ++ e6 ++ e7)
  have hrun : setup fs [] = (Res.ret (), [] ++ e1 ++ e2 ++ e3 ++ e4 ++ e5 ++ e6 ++ e7 ++ e8) := by
    unfold setup
    rw [bind_ret r1]
    simp only [ne_eq, not_true_eq_false, if_false]
    rw [bind_ret (pure_run _ _ _), bind_ret r2]
    simp only [ne_eq, not_true_eq_false, if_false]
    rw [bind_ret (pure_run _ _ _), bind_ret r3]
    simp only [ne_eq, not_true_eq_false, if_false]
    rw [bind_ret (pure_run _ _ _), bind_ret r4]
    simp only [ne_eq, not_true_eq_false, if_false]
    rw [bind_ret (pure_run _ _ _), bind_ret r5]
    simp only [ne_eq, not_true_eq_false, if_false]
    rw [bind_ret (pure_run _ _ _), bind_ret r6]
    simp only [ne_eq, not_true_eq_false, if_false]
    rw [bind_ret (pure_run _ _ _), bind_ret r7]
    simp only [ne_eq, not_true_eq_false, if_false]
    rw [bind_ret (pure_run _ _ _), bind_ret r8]
    simp only [ne_eq, not_true_eq_false, if_false]
    rfl
  rw [hrun]
  refine ⟨rfl, ?_⟩
  simp only [List.nil_append, List.map_append, c1, c2, c3, c4, c5, c6, c7, c8]
  decide

/-- Witness for C9: the mock `Sysfs.allOk`. -/
theorem setup_sequence_witness :
    (setup Sysfs.allOk []).1 = Res.ret () ∧
    ((setup Sysfs.allOk []).2.map Event.call).length = 24 := by
  have h := setup_sequence Sysfs.allOk allSucceed_allOk
  exact ⟨h.1, by rw [h.2]; rfl⟩

/-! ## The ramp in the exact arithmetic of the specification -/

theorem triangle_le (i : Nat) : triangle i ≤ 100 := by
  unfold triangle
  split <;> omega

theorem asInt32_small (n : Nat) (hn : n < 2147483648) : asInt32 n = (n : Int) := by
  unfold asInt32
  have h1 : n % 4294967296 = n := Nat.mod_eq_of_lt (by omega)
  rw [h1, if_pos hn]

theorem toString_natCast (n : Nat) : toString ((n : Nat) : Int) = toString n := rfl

theorem exactArith_toUInt32 (x : ℚ) :
    exactArith.toUInt32 x =
      if 0 ≤ Int.tdiv x.num (x.den : Int) ∧ Int.tdiv x.num (x.den : Int) < 4294967296
      then some (Int.tdiv x.num (x.den : Int)).toNat else none := rfl

theorem exactArith_add (x y : ℚ) : exactArith.add x y = x + y := rfl

theorem exactArith_mul (x y : ℚ) : exactArith.mul x y = x * y := rfl

theorem exactArith_ofUInt32 (n : Nat) : exactArith.ofUInt32 n = (n : ℚ) := rfl

theorem exactArith_le (x y : ℚ) : exactArith.le x y = decide (x ≤ y) := rfl

theorem exact_duty (t : Nat) (ht : t ≤ 100) :
    exactArith.toUInt32 (exactArith.mul ((t : ℚ) / 100) (exactArith.ofUInt32 200000)) =
      some (2000 * t) := by
  have hx : exactArith.mul ((t : ℚ) / 100) (exactArith.ofUInt32 200000)
      = ((2000 * t : Nat) : ℚ) := by
    rw [exactArith_mul, exactArith_ofUInt32]
    push_cast
    ring
  rw [hx, exactArith_toUInt32, Rat.num_natCast, Rat.den_natCast]
  simp only [Nat.cast_one, Int.tdiv_one]
  have h1 : (0 : Int) ≤ ((2000 * t : Nat) : Int) := Int.ofNat_nonneg _
  have h2 : ((2000 * t : Nat) : Int) < 4294967296 := by omega
  rw [if_pos ⟨h1, h2⟩, Int.toNat_ofNat]

theorem triangle_succ_up (i : Nat) (h : i % 200 < 100) : triangle (i + 1) = triangle i + 1 := by
  unfold triangle
  split <;> split <;> omega

theorem triangle_succ_down (i : Nat) (h : 100 ≤ i % 200) :
    triangle (i + 1) + 1 = triangle i := by
  unfold triangle
  split <;> split <;> omega

theorem exact_percentage_succ (i : Nat) :
    exactArith.add (exactState i).percentage (exactState i).increment =
      (triangle (i + 1) : ℚ) / 100 := by
  rw [exactArith_add]
  show (triangle i : ℚ) / 100 + (if i % 200 < 100 then 1 / 100 else -(1 / 100)) = _
  by_cases h : i % 200 < 100
  · rw [if_pos h, triangle_succ_up i h]
    push_cast
    ring
  · have h2 := triangle_succ_down i (by omega)
    rw [if_neg h, ← h2]
    push_cast
    ring

theorem exact_ge_max (t : Nat) :
    exactArith.le exactArith.MAX_PERCENT ((t : ℚ) / 100) = decide (100 ≤ t) := by
  rw [exactArith_le]
  show decide ((1 : ℚ) ≤ (t : ℚ) / 100) = _
  congr 1
  rw [eq_iff_iff, le_div_iff₀ (by norm_num : (0 : ℚ) < 100)]
  constructor
  · intro h
    have : ((100 : Nat) : ℚ) ≤ (t : ℚ) := by push_cast; linarith
    exact_mod_cast this
  · intro h
    have : ((100 : Nat) : ℚ) ≤ (t : ℚ) := by exact_mod_cast h
    push_cast at this
    linarith

theorem exact_le_min (t : Nat) :
    exactArith.le ((t : ℚ) / 100) exactArith.MIN_PERCENT = decide (t = 0) := by
  rw [exactArith_le]
  show decide ((t : ℚ) / 100 ≤ (0 : ℚ)) = _
  congr 1
  rw [eq_iff_iff, div_le_iff₀ (by norm_num : (0 : ℚ) < 100)]
  constructor
  · intro h
    have h0 : (t : ℚ) ≤ ((0 : Nat) : ℚ) := by push_cast; linarith
    have : t ≤ 0 := by exact_mod_cast h0
    omega
  · intro h
    subst h
    norm_num

theorem bottomTouch_run (fs : Sysfs)
    (hw : ∀ h path fd data, fs.writeRet h path fd data = (data.length : Int))
    (enableFd : Int) (cycle : Nat) (enabled : Int) (h : List Event) :
    bottomTouch enableFd cycle enabled fs h =
      if cycle ≥ 4 then (Res.ret (0, 0), h ++ [Event.sysWrite enablePath enableFd "0" 1])
      else if enabled ≠ 1 then
        (Res.ret ((cycle + 1) % 4294967296, 1), h ++ [Event.sysWrite enablePath enableFd "1" 1])
      else (Res.ret ((cycle + 1) % 4294967296, enabled), h) := by
  have l0 : ((toString (0 : Int)).length : Int) = 1 := by decide
  have l1 : ((toString (1 : Int)).length : Int) = 1 := by decide
  have s0 : toString (0 : Int) = "0" := by decide
  have s1 : toString (1 : Int) = "1" := by decide
  unfold bottomTouch
  by_cases hc : cycle ≥ 4
  · simp only [hc, if_true, bind_run, sysWrite, hw, ne_eq, not_true_eq_false, if_false,
      pure_run, l0, s0]
    rfl
  · by_cases he : enabled ≠ 1
    · simp only [hc, he, if_true, if_false, bind_run, sysWrite, hw, ne_eq, not_true_eq_false,
        not_false_eq_true, pure_run, l1, s1]
      rfl
    · simp only [hc, he, if_false, bind_run, pure_run]

theorem exact_step (fs : Sysfs)
    (hw : ∀ h path fd data, fs.writeRet h path fd data = (data.length : Int))
    (enableFd dutyFd : Int) (i : Nat) (h : List Event) :
    loopBody exactArith enableFd dutyFd 200000 (exactState i) fs h =
      (Res.ret (exactState (i + 1)), h ++ exactEvents enableFd dutyFd (i + 1)) := by
  have ht := triangle_le (i + 1)
  have htri : triangle (i + 1) =
      if (i + 1) % 200 ≤ 100 then (i + 1) % 200 else 200 - (i + 1) % 200 := rfl
  unfold loopBody
  simp only [exact_percentage_succ, exact_duty _ ht]
  rw [asInt32_small _ (by omega), toString_natCast]
  simp only [bind_run, sysWrite, hw, ne_eq, not_true_eq_false, if_false, pure_run, usleep,
    exact_ge_max, exact_le_min]
  by_cases h100 : (i + 1) % 200 = 100
  · -- the top bound
    have t100 : triangle (i + 1) = 100 := by rw [htri]; split <;> omega
    have hd : (i + 1) / 200 = i / 200 := by omega
    simp only [t100, le_refl, decide_True, if_true, pure_run]
    refine Prod.ext ?_ ?_
    · show Res.ret _ = Res.ret _
      congr 1
      simp only [exactState, LoopState.mk.injEq, t100, hd, h100]
      refine ⟨?_, ?_, trivial, trivial, trivial⟩
      · show (1 : ℚ) = _
        norm_num
      · show -(1 / 100 : ℚ) = _
        norm_num
    · show _ = h ++ exactEvents enableFd dutyFd (i + 1)
      simp [exactEvents, exactEnableEvents, t100, h100]
  · by_cases h0 : (i + 1) % 200 = 0
    · -- the bottom bound
      have t0 : triangle (i + 1) = 0 := by rw [htri]; split <;> omega
      have hd : (i + 1) / 200 = i / 200 + 1 := by omega
      simp only [t0, Nat.le_zero_eq, OfNat.ofNat_ne_zero, decide_False, Bool.false_eq_true,
        if_false, decide_True, if_true, bind_run, bottomTouch_run fs hw]
      have hcyc : (exactState i).cycle = (i / 200) % 5 := rfl
      have hen : (exactState i).enabled = if 1 ≤ i / 200 ∧ (i / 200) % 5 = 0 then 0 else 1 := rfl
      have hev : exactEvents enableFd dutyFd (i + 1) =
          [Event.sysWrite dutyPath dutyFd (toString (2000 * 0))
            ((toString (2000 * 0)).length : Int), Event.sleep 20000] ++
          (if (i / 200 + 1) % 5 = 0 then [Event.sysWrite enablePath enableFd "0" 1]
            else if (i / 200 + 1) % 5 = 1 ∧ i / 200 + 1 ≠ 1 then
              [Event.sysWrite enablePath enableFd "1" 1]
            else []) := by
        simp only [exactEvents, exactEnableEvents, touchEvents, t0, h0, hd, if_true]
      have hst : exactState (i + 1) =
          { percentage := exactArith.MIN_PERCENT, increment := exactArith.INCREMENT, duty := 2000 * 0,
            cycle := (i / 200 + 1) % 5,
            enabled := if (i / 200 + 1) % 5 = 0 then 0 else 1 } := by
        simp only [exactState, LoopState.mk.injEq, t0, h0, hd]
        refine ⟨?_, ?_, trivial, trivial, ?_⟩
        · show _ = (0 : ℚ)
          norm_num
        · show _ = (1 / 100 : ℚ)
          norm_num
        · congr 1
          simp
      rw [hev, hst, hcyc, hen]
      clear hev hst hcyc hen htri ht t0 hw
      by_cases c4 : (i / 200) % 5 ≥ 4
      · have e0 : (i / 200 + 1) % 5 = 0 := by omega
        simp only [c4, e0, if_true, pure_run, List.append_assoc]
        rfl
      · have e0 : ¬ (i / 200 + 1) % 5 = 0 := by omega
        have hlt5 : (i / 200) % 5 + 1 ≤ 5 := by omega
        have e5 : (i / 200) % 5 + 1 = (i / 200 + 1) % 5 := by omega
        have e1 : ((i / 200 + 1) % 5 = 1 ∧ i / 200 + 1 ≠ 1) ↔ (1 ≤ i / 200 ∧ (i / 200) % 5 = 0) := by
          omega
        have ec : ((i / 200) % 5 + 1) % 4294967296 = (i / 200 + 1) % 5 := by
          rw [Nat.mod_eq_of_lt (Nat.lt_of_le_of_lt hlt5 (by decide))]
          exact e5
        clear hlt5 e5
        by_cases c0 : 1 ≤ i / 200 ∧ (i / 200) % 5 = 0
        · have e2 := e1.2 c0
          simp only [c4, c0, e0, e2, ec, and_self, if_true, if_false, ne_eq, not_false_eq_true,
            pure_run, List.append_assoc, zero_ne_one]
          rfl
        · have e2 : ¬ ((i / 200 + 1) % 5 = 1 ∧ i / 200 + 1 ≠ 1) := fun hh => c0 (e1.1 hh)
          simp only [c4, c0, e0, e2, ec, if_false, ne_eq, not_true_eq_false,
            pure_run, List.append_assoc, List.append_nil]
          rfl
    · -- strictly between the bounds
      have tne : ¬ 100 ≤ triangle (i + 1) := by rw [htri]; split <;> omega
      have tne0 : ¬ triangle (i + 1) = 0 := by rw [htri]; split <;> omega
      have hd : (i + 1) / 200 = i / 200 := by omega
      simp only [tne, tne0, decide_False, Bool.false_eq_true, if_false, pure_run]
      refine Prod.ext ?_ ?_
      · show Res.ret _ = Res.ret _
        congr 1
        simp only [exactState, LoopState.mk.injEq, hd]
        refine ⟨trivial, ?_, trivial, trivial, trivial⟩
        by_cases hl : i % 200 < 100
        · have hl2 : (i + 1) % 200 < 100 := by omega
          rw [if_pos hl, if_pos hl2]
        · have hl2 : ¬ (i + 1) % 200 < 100 := by omega
          rw [if_neg hl, if_neg hl2]
      · show _ = h ++ exactEvents enableFd dutyFd (i + 1)
        simp [exactEvents, exactEnableEvents, h0]

theorem exact_loop (fs : Sysfs)
    (hw : ∀ h path fd data, fs.writeRet h path fd data = (data.length : Int))
    (enableFd dutyFd : Int) (n i : Nat) (h : List Event) :
    pwmLoop exactArith enableFd dutyFd 200000 n (exactState i) fs h =
      (Res.ret (exactState (i + n)), h ++ exactTrace enableFd dutyFd i n) := by
  induction n generalizing i h with
  | zero => simp [pwmLoop, exactTrace, pure_run]
  | succ n ih =>
    unfold pwmLoop
    rw [bind_ret (exact_step fs hw enableFd dutyFd i h), ih]
    simp only [exactTrace, List.append_assoc]
    congr 3
    omega

theorem pwmGlow_start {F : Type} (A : Arith F) (fs : Sysfs) (hfs : fs.AllSucceed) (d0 : Nat)
    (hd : A.toUInt32 (A.mul A.zero (A.ofUInt32 200000)) = some d0) (h : List Event) :
    ∃ pre enableFd dutyFd, pre.map Event.call = preambleCalls ∧
      ∀ n, pwmGlow A n fs h =
        pwmLoop A enableFd dutyFd 200000 n (initialState A d0) fs (h ++ pre) := by
  obtain ⟨ho, hw⟩ := hfs
  have lp : ((toString (asInt32 (200 * 1000))).length : Int) = 6 := by decide
  have sp : toString (asInt32 (200 * 1000)) = "200000" := by decide
  have ln : (("normal" : String).length : Int) = 6 := by decide
  have l1 : ((toString (1 : Int)).length : Int) = 1 := by decide
  have s1 : toString (1 : Int) = "1" := by decide
  have hpol : (if INVERSE_POLARITY = 1 then "inversed" else "normal") = "normal" := by decide
  have hper : (200 * 1000 : Nat) = 200000 := by decide
  have hrun : ∀ n, pwmGlow A n fs h = pwmGlow A n fs h := fun _ => rfl
  conv at hrun =>
    intro n
    rhs
    unfold pwmGlow
    simp only [bind_run, sysOpen, sysRead, sysClose, sysWrite, pure_run, hw, lp, sp, ln, l1, s1,
      hpol, hper, hd, not_lt.2 (ho _ _), if_false, ne_eq, not_true_eq_false,
      List.append_assoc, List.singleton_append, List.cons_append, List.nil_append]
  refine ⟨_, _, _, ?_, hrun⟩
  rfl

theorem writesTo_append (path : String) (l1 l2 : List Event) :
    writesTo path (l1 ++ l2) = writesTo path l1 ++ writesTo path l2 := by
  simp [writesTo, List.filterMap_append]

theorem writesTo_of_calls (path : String) (l : List Event) (cs : List Call)
    (h : l.map Event.call = cs) : writesTo path l = cs.filterMap (Call.writtenTo path) := by
  rw [← h]
  rfl

theorem writesTo_enable_touchEvents (enableFd : Int) (k : Nat) :
    writesTo enablePath (touchEvents enableFd k) = touchData k := by
  unfold touchEvents touchData
  split
  · simp [writesTo, Event.call, Call.writtenTo]
  · split <;> simp [writesTo, Event.call, Call.writtenTo]

theorem writesTo_enable_exactEvents (enableFd dutyFd : Int) (i : Nat) :
    writesTo enablePath (exactEvents enableFd dutyFd i) =
      if i % 200 = 0 then touchData (i / 200) else [] := by
  have hne : ¬ dutyPath = enablePath := by decide
  unfold exactEvents exactEnableEvents
  rw [writesTo_append]
  have h1 : writesTo enablePath
      [Event.sysWrite dutyPath dutyFd (toString (2000 * triangle i))
        ((toString (2000 * triangle i)).length : Int), Event.sleep 20000] = [] := by
    simp [writesTo, Event.call, Call.writtenTo, hne]
  rw [h1, List.nil_append]
  split
  · exact writesTo_enable_touchEvents enableFd _
  · rfl

theorem writesTo_enable_exactTrace (enableFd dutyFd : Int) (i n : Nat) :
    writesTo enablePath (exactTrace enableFd dutyFd i n) = exactEnableData i n := by
  induction n generalizing i with
  | zero => rfl
  | succ n ih =>
    simp only [exactTrace, exactEnableData, writesTo_append, writesTo_enable_exactEvents, ih]

theorem initialState_exact : initialState exactArith 0 = exactState 0 := by
  simp only [initialState, exactState, LoopState.mk.injEq, triangle]
  refine ⟨?_, ?_, ?_, ?_, ?_⟩
  · show (0 : ℚ) = _
    norm_num
  · show (1 / 100 : ℚ) = _
    norm_num
  · decide
  · decide
  · decide

theorem exact_initial_duty :
    exactArith.toUInt32 (exactArith.mul exactArith.zero (exactArith.ofUInt32 200000)) = some 0 := by
  have h := exact_duty 0 (by decide)
  have hz : exactArith.zero = ((0 : Nat) : ℚ) / 100 := by
    show (0 : ℚ) = _
    norm_num
  rw [hz]
  exact h

theorem exact_run (fs : Sysfs) (hfs : fs.AllSucceed) :
    ∃ pre enableFd dutyFd, pre.map Event.call = preambleCalls ∧
      ∀ n, pwmGlow exactArith n fs [] =
        (Res.ret (exactState n), pre ++ exactTrace enableFd dutyFd 0 n) := by
  obtain ⟨pre, enableFd, dutyFd, hpre, hrun⟩ :=
    pwmGlow_start exactArith fs hfs 0 exact_initial_duty []
  refine ⟨pre, enableFd, dutyFd, hpre, fun n => ?_⟩
  rw [hrun, initialState_exact, exact_loop fs hfs.2]
  simp

/-! ## Failed writes -/

theorem noFailedWrite_nil : NoFailedWrite [] := fun _ he => by simp at he

theorem noFailedWrite_append {a b : List Event} (ha : NoFailedWrite a) (hb : NoFailedWrite b) :
    NoFailedWrite (a ++ b) := by
  intro e he
  rcases List.mem_append.1 he with h1 | h1
  · exact ha e h1
  · exact hb e h1

theorem noFailedWrite_cons {e : Event} {b : List Event} (he : ¬ e.FailedWrite)
    (hb : NoFailedWrite b) : NoFailedWrite (e :: b) := by
  intro x hx
  rcases List.mem_cons.1 hx with h1 | h1
  · rw [h1]; exact he
  · exact hb x h1

theorem failedWrite_unique {a b a1 b1 : List Event} {w w1 : Event}
    (h : a ++ w :: b = a1 ++ w1 :: b1) (hw : w.FailedWrite)
    (ha1 : NoFailedWrite a1) (hb1 : NoFailedWrite b1) : a = a1 ∧ w = w1 ∧ b = b1 := by
  rcases List.append_eq_append_iff.1 h with ⟨c, hc1, hc2⟩ | ⟨c, hc1, hc2⟩
  · cases c with
    | nil =>
      simp only [List.nil_append, List.cons.injEq] at hc2
      simp only [List.append_nil] at hc1
      exact ⟨hc1.symm, hc2.1, hc2.2⟩
    | cons x c =>
      simp only [List.cons_append, List.cons.injEq] at hc2
      exfalso
      apply ha1 w _ hw
      rw [hc1, hc2.1]
      simp
  · cases c with
    | nil =>
      simp only [List.nil_append, List.cons.injEq] at hc2
      simp only [List.append_nil] at hc1
      exact ⟨hc1, hc2.1.symm, hc2.2.symm⟩
    | cons x c =>
      simp only [List.cons_append, List.cons.injEq] at hc2
      exfalso
      apply hb1 w _ hw
      rw [hc2.2]
      simp

theorem gpio_dealloc_log (fs : Sysfs) (gpionum : Int) (h : List Event) :
    ∃ v evs, gpio_dealloc gpionum fs h = (Res.ret v, h ++ evs) ∧ NoFailedWrite evs := by
  unfold gpio_dealloc
  simp only [bind_run, sysOpen, sysWrite, sysClose]
  have hopen : ∀ fd, ¬ (Event.sysOpen unexportPath fd).FailedWrite := fun _ hh => hh
  have hclose : ∀ fd, ¬ (Event.sysClose fd).FailedWrite := fun _ hh => hh
  have hwr : ∀ fd d r, ¬ (Event.sysWrite unexportPath fd d r).FailedWrite :=
    fun _ _ _ hh => hh.1 rfl
  by_cases hfd : fs.openRet h unexportPath = -1
  · simp only [hfd, if_true, pure_run]
    exact ⟨_, _, rfl, noFailedWrite_cons (hopen _) noFailedWrite_nil⟩
  · simp only [hfd, if_false, bind_run, sysWrite]
    split
    · simp only [pure_run, List.append_assoc]
      exact ⟨_, _, rfl, noFailedWrite_cons (hopen _)
        (noFailedWrite_cons (hwr _ _ _) noFailedWrite_nil)⟩
    · simp only [bind_run, sysClose, pure_run, List.append_assoc]
      exact ⟨_, _, rfl, noFailedWrite_cons (hopen _)
        (noFailedWrite_cons (hwr _ _ _) (noFailedWrite_cons (hclose _) noFailedWrite_nil))⟩

theorem releasePins_log (fs : Sysfs) (h : List Event) :
    ∃ evs, releasePins fs h = (Res.ret (), h ++ evs) ∧ NoFailedWrite evs := by
  obtain ⟨v1, e1, r1, n1⟩ := gpio_dealloc_log fs 20 h
  obtain ⟨v2, e2, r2, n2⟩ := gpio_dealloc_log fs 21 (h ++ e1)
  obtain ⟨v3, e3, r3, n3⟩ := gpio_dealloc_log fs 68 (h ++ e1 ++ e2)
  refine ⟨e1 ++ e2 ++ e3, ?_, noFailedWrite_append (noFailedWrite_append n1 n2) n3⟩
  unfold releasePins
  rw [bind_ret r1, bind_ret r2, bind_ret r3, pure_run]
  simp only [List.append_assoc]

theorem error_exit_run {α : Type} (msg : String) (fs : Sysfs) (h : List Event) :
    (error_exit msg : Prog α) fs h = (Res.halt (-1), (releasePins fs h).2) := by
  obtain ⟨v1, e1, r1, _⟩ := gpio_dealloc_log fs 20 h
  obtain ⟨v2, e2, r2, _⟩ := gpio_dealloc_log fs 21 (h ++ e1)
  obtain ⟨v3, e3, r3, _⟩ := gpio_dealloc_log fs 68 (h ++ e1 ++ e2)
  unfold error_exit releasePins
  rw [bind_ret r1, bind_ret r2, bind_ret r3, bind_ret r1, bind_ret r2, bind_ret r3, pure_run]
  rfl

theorem checked_clean {α : Type} {fs : Sysfs} {h : List Event} {r : Res α × List Event}
    (evs : List Event) (hr : r.2 = h ++ evs) (hn : NoFailedWrite evs) : Checked fs h r :=
  Or.inl ⟨evs, hr, hn⟩

theorem checked_extend {α : Type} {fs : Sysfs} {h : List Event} {r : Res α × List Event}
    (evs : List Event) (hn : NoFailedWrite evs) (hr : Checked fs (h ++ evs) r) :
    Checked fs h r := by
  rcases hr with ⟨e2, h2, n2⟩ | ⟨e2, w, hw, n2, hh, h2⟩
  · exact Or.inl ⟨evs ++ e2, by rw [h2, List.append_assoc], noFailedWrite_append hn n2⟩
  · refine Or.inr ⟨evs ++ e2, w, hw, noFailedWrite_append hn n2, hh, ?_⟩
    rw [h2]
    simp only [List.append_assoc]

theorem checked_bind {α β : Type} {m : Prog α} {f : α → Prog β} {fs : Sysfs} {h : List Event}
    (hm : Checked fs h (m fs h)) (hf : ∀ a h1, Checked fs h1 (f a fs h1)) :
    Checked fs h ((m >>= f) fs h) := by
  rw [bind_run]
  rcases hm with ⟨evs, h2, n2⟩ | ⟨evs, w, hw, n2, hh, h2⟩
  · rcases hmr : m fs h with ⟨res, h1⟩
    rw [hmr] at h2
    simp only at h2
    subst h2
    cases res with
    | ret a => exact checked_extend evs n2 (hf a _)
    | halt c => exact checked_clean evs rfl n2
    | undef => exact checked_clean evs rfl n2
  · rcases hmr : m fs h with ⟨res, h1⟩
    rw [hmr] at h2 hh
    simp only at h2 hh
    subst hh
    exact Or.inr ⟨evs, w, hw, n2, rfl, h2⟩

theorem checked_pure {α : Type} (a : α) (fs : Sysfs) (h : List Event) :
    Checked fs h ((pure a : Prog α) fs h) :=
  checked_clean [] (by simp [pure_run]) noFailedWrite_nil

theorem checked_undef {α : Type} (fs : Sysfs) (h : List Event) :
    Checked fs h ((undefinedBehaviour : Prog α) fs h) :=
  checked_clean [] (by simp [undefinedBehaviour]) noFailedWrite_nil

theorem checked_error_exit {α : Type} (msg : String) (fs : Sysfs) (h : List Event) :
    Checked fs h ((error_exit msg : Prog α) fs h) := by
  obtain ⟨evs, hr, hn⟩ := releasePins_log fs h
  refine checked_clean evs ?_ hn
  rw [error_exit_run, hr]

theorem checked_open (path : String) (fs : Sysfs) (h : List Event) :
    Checked fs h (sysOpen path fs h) :=
  checked_clean [_] rfl (noFailedWrite_cons (fun hh => hh) noFailedWrite_nil)

theorem checked_read (path : String) (fd : Int) (fs : Sysfs) (h : List Event) :
    Checked fs h (sysRead path fd fs h) :=
  checked_clean [_] rfl (noFailedWrite_cons (fun hh => hh) noFailedWrite_nil)

theorem checked_close (fd : Int) (fs : Sysfs) (h : List Event) :
    Checked fs h (sysClose fd fs h) :=
  checked_clean [_] rfl (noFailedWrite_cons (fun hh => hh) noFailedWrite_nil)

theorem checked_usleep (usec : Nat) (fs : Sysfs) (h : List Event) :
    Checked fs h (usleep usec fs h) :=
  checked_clean [_] rfl (noFailedWrite_cons (fun hh => hh) noFailedWrite_nil)

theorem checked_ite_exit (c : Prop) [Decidable c] (msg : String) (fs : Sysfs)
    (h : List Event) :
    Checked fs h ((if c then error_exit msg else pure ()) fs h) := by
  split
  · exact checked_error_exit msg fs h
  · exact checked_pure () fs h

theorem checked_exit_or {β : Type} (c : Prop) [Decidable c] (msg : String)
    (k : Unit → Prog β) (fs : Sysfs) (h : List Event)
    (hk : ∀ h1, Checked fs h1 (k () fs h1)) :
    Checked fs h ((if c then error_exit msg >>= k else pure () >>= k) fs h) := by
  split
  · exact checked_bind (checked_error_exit msg fs h) (fun _ h1 => hk h1)
  · exact checked_bind (checked_pure () fs h) (fun _ h1 => hk h1)

theorem checked_write {β : Type} (path : String) (fd : Int) (data msg : String)
    (k : Unit → Prog β) (fs : Sysfs) (h : List Event) (hp : path ≠ unexportPath)
    (hk : ∀ h1, Checked fs h1 (k () fs h1)) :
    Checked fs h ((sysWrite path fd data >>= fun bytes =>
      if bytes ≠ (data.length : Int) then error_exit msg >>= k else pure () >>= k) fs h) := by
  rw [bind_run]
  simp only [sysWrite]
  by_cases hb : fs.writeRet h path fd data ≠ (data.length : Int)
  · rw [if_pos hb, bind_halt (error_exit_run msg fs _)]
    have hw : (Event.sysWrite path fd data (fs.writeRet h path fd data)).FailedWrite := ⟨hp, hb⟩
    exact Or.inr ⟨[], Event.sysWrite path fd data (fs.writeRet h path fd data), hw,
      noFailedWrite_nil, rfl, by simp⟩
  · rw [if_neg hb, bind_ret (pure_run _ _ _)]
    have hw : ¬ (Event.sysWrite path fd data (fs.writeRet h path fd data)).FailedWrite :=
      fun hh => hb hh.2
    exact checked_extend [Event.sysWrite path fd data (fs.writeRet h path fd data)]
      (noFailedWrite_cons hw noFailedWrite_nil) (hk _)

theorem checked_status {β : Type} (m : Prog Int) (msg : String) (k : Unit → Prog β)
    (fs : Sysfs) (h : List Event) (hm : Reported h (m fs h))
    (hk : ∀ h1, Checked fs h1 (k () fs h1)) :
    Checked fs h ((m >>= fun r =>
      if r ≠ 0 then error_exit msg >>= k else pure () >>= k) fs h) := by
  rcases hm with ⟨evs, v, hr, hn⟩ | ⟨evs, w, hw, hn, hr⟩
  · rw [bind_ret hr]
    exact checked_extend evs hn (checked_exit_or _ msg k fs _ hk)
  · rw [bind_ret hr, if_pos (by decide), bind_halt (error_exit_run msg fs _)]
    exact Or.inr ⟨evs, w, hw, hn, rfl, rfl⟩

theorem checked_status_last (m : Prog Int) (msg : String)
    (fs : Sysfs) (h : List Event) (hm : Reported h (m fs h)) :
    Checked fs h ((m >>= fun r =>
      if r ≠ 0 then error_exit msg else pure ()) fs h) := by
  rcases hm with ⟨evs, v, hr, hn⟩ | ⟨evs, w, hw, hn, hr⟩
  · rw [bind_ret hr]
    exact checked_extend evs hn (checked_ite_exit _ msg fs _)
  · rw [bind_ret hr, if_pos (by decide), error_exit_run]
    exact Or.inr ⟨evs, w, hw, hn, rfl, rfl⟩

theorem gpioPath_ne_unexport (n : Int) (suffix : String) :
    "/sys/class/gpio/gpio" ++ toString n ++ suffix ≠ unexportPath := by
  intro hh
  have h1 := congrArg (fun s => s.data.take 17) hh
  simp only [String.data_append, List.append_assoc] at h1
  rw [List.take_append_of_le_length (by decide)] at h1
  revert h1
  decide

theorem reported_open_write_close (path : String) (hp : path ≠ unexportPath) (data : String)
    (fs : Sysfs) (h : List Event) :
    Reported h ((do
      let fd ← sysOpen path
      if fd = -1 then pure 1
      else do
        let bytes ← sysWrite path fd data
        if bytes ≠ (data.length : Int) then pure 1
        else do
          sysClose fd
          pure 0 : Prog Int) fs h) := by
  simp only [bind_run, sysOpen]
  have hopen : ¬ (Event.sysOpen path (fs.openRet h path)).FailedWrite := fun hh => hh
  have hclose : ¬ (Event.sysClose (fs.openRet h path)).FailedWrite := fun hh => hh
  by_cases hfd : fs.openRet h path = -1
  · simp only [hfd, if_true, pure_run]
    exact Or.inl ⟨_, _, rfl, noFailedWrite_cons (by rw [← hfd]; exact hopen) noFailedWrite_nil⟩
  · simp only [hfd, if_false, bind_run, sysWrite]
    by_cases hb : fs.writeRet (h ++ [Event.sysOpen path (fs.openRet h path)]) path
        (fs.openRet h path) data ≠ (data.length : Int)
    · rw [if_pos hb, pure_run]
      have hw : (Event.sysWrite path (fs.openRet h path) data
          (fs.writeRet (h ++ [Event.sysOpen path (fs.openRet h path)]) path
            (fs.openRet h path) data)).FailedWrite := ⟨hp, hb⟩
      exact Or.inr ⟨[Event.sysOpen path (fs.openRet h path)], _, hw,
        noFailedWrite_cons hopen noFailedWrite_nil, rfl⟩
    · rw [if_neg hb]
      simp only [bind_run, sysClose, pure_run, List.append_assoc]
      have hwr : ¬ (Event.sysWrite path (fs.openRet h path) data
          (fs.writeRet (h ++ [Event.sysOpen path (fs.openRet h path)]) path
            (fs.openRet h path) data)).FailedWrite := fun hh => hb hh.2
      exact Or.inl ⟨_, _, rfl, noFailedWrite_cons hopen
        (noFailedWrite_cons hwr (noFailedWrite_cons hclose noFailedWrite_nil))⟩

theorem reported_gpio_alloc (gpionum : Int) (fs : Sysfs) (h : List Event) :
    Reported h (gpio_alloc gpionum fs h) :=
  reported_open_write_close exportPath (by decide) (toString gpionum) fs h

theorem reported_gpio_set_direction (gpionum : Int) (direction : String) (fs : Sysfs)
    (h : List Event) : Reported h (gpio_set_direction gpionum direction fs h) := by
  unfold gpio_set_direction
  split
  · exact Or.inl ⟨[], 1, by simp [pure_run], noFailedWrite_nil⟩
  · exact reported_open_write_close (directionPath gpionum)
      (gpioPath_ne_unexport gpionum "/direction") direction fs h

theorem reported_gpio_write_pin (gpionum : Int) (value : String) (fs : Sysfs)
    (h : List Event) : Reported h (gpio_write_pin gpionum value fs h) := by
  unfold gpio_write_pin
  split
  · exact Or.inl ⟨[], 1, by simp [pure_run], noFailedWrite_nil⟩
  · exact reported_open_write_close (valuePath gpionum)
      (gpioPath_ne_unexport gpionum "/value") value fs h

theorem checked_setup (fs : Sysfs) (h : List Event) : Checked fs h (setup fs h) := by
  unfold setup
  refine checked_status _ _ _ fs h (reported_gpio_alloc 20 fs h) (fun h1 => ?_)
  refine checked_status _ _ _ fs h1 (reported_gpio_set_direction 20 "out" fs h1) (fun h2 => ?_)
  refine checked_status _ _ _ fs h2 (reported_gpio_write_pin 20 "0" fs h2) (fun h3 => ?_)
  refine checked_status _ _ _ fs h3 (reported_gpio_alloc 21 fs h3) (fun h4 => ?_)
  refine checked_status _ _ _ fs h4 (reported_gpio_set_direction 21 "in" fs h4) (fun h5 => ?_)
  refine checked_status _ _ _ fs h5 (reported_gpio_alloc 68 fs h5) (fun h6 => ?_)
  refine checked_status _ _ _ fs h6 (reported_gpio_set_direction 68 "out" fs h6) (fun h7 => ?_)
  exact checked_status_last _ _ fs h7 (reported_gpio_write_pin 68 "1" fs h7)

theorem checked_bottomTouch (enableFd : Int) (cycle : Nat) (enabled : Int) (fs : Sysfs)
    (h : List Event) : Checked fs h (bottomTouch enableFd cycle enabled fs h) := by
  have hp : enablePath ≠ unexportPath := by decide
  unfold bottomTouch
  by_cases hc : cycle ≥ 4
  · rw [if_pos hc]
    exact checked_write _ _ _ _ _ fs h hp (fun h1 => checked_pure _ fs h1)
  · rw [if_neg hc]
    by_cases he : enabled ≠ 1
    · simp only [he, if_true, ne_eq, not_false_eq_true]
      exact checked_write _ _ _ _ _ fs h hp
        (fun h1 => checked_bind (checked_pure _ fs h1) (fun _ h2 => checked_pure _ fs h2))
    · simp only [he, if_false]
      exact checked_bind (checked_pure _ fs h) (fun _ h2 => checked_pure _ fs h2)

theorem checked_loopBody {F : Type} (A : Arith F) (enableFd dutyFd : Int) (period : Nat)
    (s : LoopState F) (fs : Sysfs) (h : List Event) :
    Checked fs h (loopBody A enableFd dutyFd period s fs h) := by
  have hp : dutyPath ≠ unexportPath := by decide
  unfold loopBody
  simp only []
  cases A.toUInt32 (A.mul (A.add s.percentage s.increment) (A.ofUInt32 period)) with
  | none => exact checked_undef fs h
  | some duty =>
    simp only []
    refine checked_write _ _ _ _ _ fs h hp (fun h1 => ?_)
    refine checked_bind (checked_usleep _ fs h1) (fun _ h2 => ?_)
    by_cases ht : A.le A.MAX_PERCENT (A.add s.percentage s.increment) = true
    · rw [if_pos ht]
      exact checked_pure _ fs h2
    · rw [if_neg ht]
      by_cases hb : A.le (A.add s.percentage s.increment) A.MIN_PERCENT = true
      · rw [if_pos hb]
        exact checked_bind (checked_bottomTouch _ _ _ fs h2) (fun _ h3 => checked_pure _ fs h3)
      · rw [if_neg hb]
        exact checked_pure _ fs h2

theorem checked_pwmLoop {F : Type} (A : Arith F) (enableFd dutyFd : Int) (period : Nat)
    (n : Nat) (s : LoopState F) (fs : Sysfs) (h : List Event) :
    Checked fs h (pwmLoop A enableFd dutyFd period n s fs h) := by
  induction n generalizing s h with
  | zero => exact checked_pure s fs h
  | succ n ih =>
    unfold pwmLoop
    exact checked_bind (checked_loopBody A enableFd dutyFd period s fs h) (fun s1 h1 => ih s1 h1)

theorem checked_pwmGlow {F : Type} (A : Arith F) (n : Nat) (fs : Sysfs) (h : List Event) :
    Checked fs h (pwmGlow A n fs h) := by
  have hp1 : periodPath ≠ unexportPath := by decide
  have hp2 : polarityPath ≠ unexportPath := by decide
  have hp3 : enablePath ≠ unexportPath := by decide
  unfold pwmGlow
  refine checked_bind (checked_open _ fs h) (fun fd h1 => ?_)
  refine checked_exit_or _ _ _ fs h1 (fun h2 => ?_)
  refine checked_bind (checked_read _ _ fs h2) (fun _ h3 => ?_)
  refine checked_bind (checked_close _ fs h3) (fun _ h4 => ?_)
  refine checked_bind (checked_open _ fs h4) (fun fd2 h5 => ?_)
  refine checked_exit_or _ _ _ fs h5 (fun h6 => ?_)
  refine checked_write _ _ _ _ _ fs h6 hp1 (fun h7 => ?_)
  refine checked_bind (checked_close _ fs h7) (fun _ h8 => ?_)
  refine checked_bind (checked_open _ fs h8) (fun fd3 h9 => ?_)
  refine checked_exit_or _ _ _ fs h9 (fun h10 => ?_)
  refine checked_write _ _ _ _ _ fs h10 hp2 (fun h11 => ?_)
  refine checked_bind (checked_read _ _ fs h11) (fun _ h12 => ?_)
  refine checked_bind (checked_close _ fs h12) (fun _ h13 => ?_)
  refine checked_bind (checked_open _ fs h13) (fun fd4 h14 => ?_)
  refine checked_exit_or _ _ _ fs h14 (fun h15 => ?_)
  refine checked_write _ _ _ _ _ fs h15 hp3 (fun h16 => ?_)
  refine checked_bind (checked_open _ fs h16) (fun fd5 h17 => ?_)
  refine checked_exit_or _ _ _ fs h17 (fun h18 => ?_)
  simp only []
  cases A.toUInt32 (A.mul A.zero (A.ofUInt32 (200 * 1000))) with
  | none => exact checked_undef fs h18
  | some duty => exact checked_pwmLoop A _ _ _ n _ fs h18

theorem checked_main {F : Type} (A : Arith F) (n : Nat) (fs : Sysfs) (h : List Event) :
    Checked fs h (main A n fs h) := by
  unfold main
  exact checked_bind (checked_setup fs h) (fun _ h1 => checked_pwmGlow A n fs h1)

/-- C6: on any mock, with any arithmetic and however long the loop runs, if a `write`
issued by `setup` or `pwmGlow` (any write but those of `gpio_dealloc` to the unexport
file) returns fewer bytes than requested, then everything the program does after that
write is what the calls `gpio_dealloc(20)`, `gpio_dealloc(21)`, `gpio_dealloc(68)` do, in
this order and whatever they return, and the program ends in `exit(-1)`. -/
theorem short_write_exits {F : Type} (A : Arith F) (fs : Sysfs) (n : Nat)
    (pre post : List Event) (path : String) (fd : Int) (data : String) (ret : Int)
    (hlog : (main A n fs []).2 = pre ++ Event.sysWrite path fd data ret :: post)
    (hpath : path ≠ unexportPath) (hshort : ret < (data.length : Int)) :
    (main A n fs []).1 = Res.halt (-1) ∧
    (main A n fs []).2 = (releasePins fs (pre ++ [Event.sysWrite path fd data ret])).2 := by
  have hw : (Event.sysWrite path fd data ret).FailedWrite := ⟨hpath, by omega⟩
  rcases checked_main A n fs [] with ⟨evs, hr, hn⟩ | ⟨evs, w, hw1, hn, hh, hr⟩
  · exfalso
    rw [hlog, List.nil_append] at hr
    apply hn _ _ hw
    rw [← hr]
    simp
  · obtain ⟨devs, hd, hdn⟩ := releasePins_log fs ([] ++ evs ++ [w])
    rw [hd, hlog] at hr
    simp only [List.nil_append, List.append_assoc, List.singleton_append] at hr
    obtain ⟨e1, e2, _⟩ := failedWrite_unique hr hw hn hdn
    subst e1
    subst e2
    refine ⟨hh, ?_⟩
    rw [List.nil_append] at hd
    rw [hlog, hr, hd]
    simp

/-- Witness for C6: on the mock `Sysfs.noWrite` the very first write (pin number "20" to
the export file) is short; the program releases the three pins and exits with -1. -/
theorem short_write_exits_witness :
    (main binary32 1 Sysfs.noWrite []).1 = Res.halt (-1) ∧
    (main binary32 1 Sysfs.noWrite []).2 =
      (releasePins Sysfs.noWrite
        ([Event.sysOpen exportPath 3] ++ [Event.sysWrite exportPath 3 "20" 0])).2 :=
  short_write_exits binary32 Sysfs.noWrite 1 [Event.sysOpen exportPath 3]
    [Event.sysOpen unexportPath 3, Event.sysWrite unexportPath 3 "20" 0,
     Event.sysOpen unexportPath 3, Event.sysWrite unexportPath 3 "21" 0,
     Event.sysOpen unexportPath 3, Event.sysWrite unexportPath 3 "68" 0]
    exportPath 3 "20" 0 (by decide) (by decide) (by decide)

/-! ## Counting the bottom-touches -/

theorem touch_step (fs : Sysfs)
    (hw : ∀ h path fd data, fs.writeRet h path fd data = (data.length : Int))
    (enableFd : Int) (m : Nat) (h : List Event) :
    bottomTouch enableFd (m % 5) (if 1 ≤ m ∧ m % 5 = 0 then 0 else 1) fs h =
      (Res.ret ((m + 1) % 5, if 1 ≤ m + 1 ∧ (m + 1) % 5 = 0 then 0 else 1),
        h ++ touchEvents enableFd (m + 1)) := by
  rw [bottomTouch_run fs hw]
  unfold touchEvents
  have hlt5 : m % 5 + 1 ≤ 5 := by omega
  have e5 : m % 5 < 4 → m % 5 + 1 = (m + 1) % 5 := by omega
  have e0 : (m + 1) % 5 = 0 ↔ m % 5 ≥ 4 := by omega
  have e1 : ((m + 1) % 5 = 1 ∧ m + 1 ≠ 1) ↔ (1 ≤ m ∧ m % 5 = 0) := by omega
  have ec : m % 5 < 4 → (m % 5 + 1) % 4294967296 = (m + 1) % 5 := by
    intro hlt
    rw [Nat.mod_eq_of_lt (Nat.lt_of_le_of_lt hlt5 (by decide))]
    exact e5 hlt
  clear hlt5 e5
  by_cases c4 : m % 5 ≥ 4
  · have e0 := e0.2 c4
    simp only [c4, e0, if_true, Nat.le_add_left, and_self]
  · have e0 : ¬ (m + 1) % 5 = 0 := fun hh => c4 (e0.1 hh)
    have ec := ec (Nat.lt_of_not_le c4)
    have hflag1 : (if 1 ≤ m + 1 ∧ (m + 1) % 5 = 0 then (0 : Int) else 1) = 1 :=
      if_neg (fun hh => e0 hh.2)
    by_cases c0 : 1 ≤ m ∧ m % 5 = 0
    · have e2 := e1.2 c0
      have hflag : (if 1 ≤ m ∧ m % 5 = 0 then (0 : Int) else 1) = 0 := if_pos c0
      rw [if_neg c4, hflag, if_pos (by decide), ec, hflag1, if_neg e0, if_pos e2]
    · have e2 : ¬ ((m + 1) % 5 = 1 ∧ m + 1 ≠ 1) := fun hh => c0 (e1.1 hh)
      have hflag : (if 1 ≤ m ∧ m % 5 = 0 then (0 : Int) else 1) = 1 := if_neg c0
      rw [if_neg c4, hflag, if_neg (by decide), ec, hflag1, if_neg e0, if_neg e2,
        List.append_nil]

theorem touches_run (fs : Sysfs)
    (hw : ∀ h path fd data, fs.writeRet h path fd data = (data.length : Int))
    (enableFd : Int) (n m : Nat) (h : List Event) :
    touches enableFd n (m % 5) (if 1 ≤ m ∧ m % 5 = 0 then 0 else 1) fs h =
      (Res.ret ((m + n) % 5, if 1 ≤ m + n ∧ (m + n) % 5 = 0 then 0 else 1),
        h ++ touchTrace enableFd m n) := by
  induction n generalizing m h with
  | zero => simp [touches, touchTrace, pure_run]
  | succ n ih =>
    unfold touches
    rw [bind_ret (touch_step fs hw enableFd m h)]
    simp only []
    rw [ih (m + 1)]
    simp only [touchTrace, List.append_assoc]
    have : m + 1 + n = m + (n + 1) := by omega
    rw [this]

theorem loopBody_bottom {F : Type} (A : Arith F) (fs : Sysfs)
    (hw : ∀ h path fd data, fs.writeRet h path fd data = (data.length : Int))
    (enableFd dutyFd : Int) (period : Nat) (s : LoopState F) (d : Nat) (h : List Event)
    (hd : A.toUInt32 (A.mul (A.add s.percentage s.increment) (A.ofUInt32 period)) = some d)
    (hb : reachesBottom A s = true) :
    loopBody A enableFd dutyFd period s fs h =
      (bottomTouch enableFd s.cycle s.enabled >>= fun r =>
        pure { percentage := A.MIN_PERCENT, increment := A.INCREMENT, duty := d,
               cycle := r.1, enabled := r.2 }) fs
        (h ++ [Event.sysWrite dutyPath dutyFd (toString (asInt32 d))
            ((toString (asInt32 d)).length : Int), Event.sleep 20000]) := by
  unfold reachesBottom at hb
  simp only [Bool.and_eq_true, Bool.not_eq_true'] at hb
  unfold loopBody
  simp only [hd, bind_run, sysWrite, hw, ne_eq, not_true_eq_false, if_false, pure_run, usleep,
    hb.1, hb.2, Bool.false_eq_true, if_true, List.append_assoc, List.singleton_append]

theorem loopBody_other {F : Type} (A : Arith F) (fs : Sysfs)
    (hw : ∀ h path fd data, fs.writeRet h path fd data = (data.length : Int))
    (enableFd dutyFd : Int) (period : Nat) (s : LoopState F) (d : Nat) (h : List Event)
    (hd : A.toUInt32 (A.mul (A.add s.percentage s.increment) (A.ofUInt32 period)) = some d)
    (hb : reachesBottom A s = false) :
    ∃ p inc, loopBody A enableFd dutyFd period s fs h =
      (Res.ret { percentage := p, increment := inc, duty := d, cycle := s.cycle,
                 enabled := s.enabled },
        h ++ [Event.sysWrite dutyPath dutyFd (toString (asInt32 d))
            ((toString (asInt32 d)).length : Int), Event.sleep 20000]) := by
  unfold reachesBottom at hb
  unfold loopBody
  simp only [hd, bind_run, sysWrite, hw, ne_eq, not_true_eq_false, if_false, pure_run, usleep,
    List.append_assoc, List.singleton_append]
  by_cases ht : A.le A.MAX_PERCENT (A.add s.percentage s.increment) = true
  · simp only [ht, if_true, pure_run]
    exact ⟨_, _, rfl⟩
  · have hm : ¬ A.le (A.add s.percentage s.increment) A.MIN_PERCENT = true := by
      intro hm
      simp [ht, hm] at hb
    simp only [ht, hm, if_false, pure_run]
    exact ⟨_, _, rfl⟩

set_option maxRecDepth 100000 in
theorem exactEnableData_999 : exactEnableData 0 999 = [] := by decide

set_option maxRecDepth 100000 in
theorem exactEnableData_1000 : exactEnableData 0 1000 = ["0"] := by decide

/-- C2: with every `write` succeeding and starting from `cycle = 0`, `enabled = 1`:
each of the first four consecutive bottom-touches leaves `enabled = 1`, makes no system
call (so no write to the enable file) and increments the counter by one, up to 4; the
fifth, entered with `cycle = 4`, writes "0" to the enable file once, sets `enabled = 0`
and resets the counter to 0.  A loop iteration whose updated percentage is
`<= MIN_PERCENT` runs exactly this block on its `cycle` and `enabled`, whatever the
arithmetic.  With exact arithmetic the bottom-touches are the iterations 200, 400, ...:
after 200, 400, 600 and 800 iterations the counter is 1, 2, 3, 4 with `enabled = 1`, the
first 999 iterations write nothing to the enable file after the initial "1", and
iteration 1000 writes the single "0" and leaves `cycle = 0`, `enabled = 0`. -/
theorem cycle_counting (fs : Sysfs) (hfs : fs.AllSucceed) :
    (∀ (enableFd : Int) (h : List Event),
      (∀ k, k < 4 → touches enableFd (k + 1) 0 1 fs h = (Res.ret (k + 1, 1), h)) ∧
      bottomTouch enableFd 4 1 fs h =
        (Res.ret (0, 0), h ++ [Event.sysWrite enablePath enableFd "0" 1]) ∧
      touches enableFd 5 0 1 fs h =
        (Res.ret (0, 0), h ++ [Event.sysWrite enablePath enableFd "0" 1])) ∧
    (∀ (F : Type) (A : Arith F) (enableFd dutyFd : Int) (period : Nat) (s : LoopState F)
      (d : Nat) (h : List Event),
      A.toUInt32 (A.mul (A.add s.percentage s.increment) (A.ofUInt32 period)) = some d →
      reachesBottom A s = true →
      loopBody A enableFd dutyFd period s fs h =
        (bottomTouch enableFd s.cycle s.enabled >>= fun r =>
          pure { percentage := A.MIN_PERCENT, increment := A.INCREMENT, duty := d,
                 cycle := r.1, enabled := r.2 }) fs
          (h ++ [Event.sysWrite dutyPath dutyFd (toString (asInt32 d))
            ((toString (asInt32 d)).length : Int), Event.sleep 20000])) ∧
    (∀ k, 1 ≤ k → k ≤ 4 → ∃ s, (pwmGlow exactArith (200 * k) fs []).1 = Res.ret s ∧
      s.cycle = k ∧ s.enabled = 1) ∧
    writesTo enablePath (pwmGlow exactArith 999 fs []).2 = ["1"] ∧
    writesTo enablePath (pwmGlow exactArith 1000 fs []).2 = ["1", "0"] ∧
    (∃ s, (pwmGlow exactArith 1000 fs []).1 = Res.ret s ∧ s.cycle = 0 ∧ s.enabled = 0) := by
  obtain ⟨pre, enableFd, dutyFd, hpre, hrun⟩ := exact_run fs hfs
  have hpw : writesTo enablePath pre = ["1"] := by
    rw [writesTo_of_calls enablePath pre preambleCalls hpre]
    decide
  refine ⟨fun fd h => ⟨fun k hk => ?_, ?_, ?_⟩, ?_, fun k h1 h4 => ?_, ?_, ?_, ?_⟩
  · have ht := touches_run fs hfs.2 fd (k + 1) 0 h
    have hk4 : k = 0 ∨ k = 1 ∨ k = 2 ∨ k = 3 := by omega
    rcases hk4 with rfl | rfl | rfl | rfl <;> simpa [touchTrace, touchEvents] using ht
  · simpa [touchEvents] using touch_step fs hfs.2 fd 4 h
  · simpa [touchTrace, touchEvents] using touches_run fs hfs.2 fd 5 0 h
  · intro F A fdE fdD period s d h hd hb
    exact loopBody_bottom A fs hfs.2 fdE fdD period s d h hd hb
  · refine ⟨exactState (200 * k), by rw [hrun], ?_, ?_⟩
    · show (200 * k / 200) % 5 = k
      omega
    · show (if 1 ≤ 200 * k / 200 ∧ (200 * k / 200) % 5 = 0 then (0 : Int) else 1) = 1
      rw [if_neg]
      omega
  · rw [hrun]
    show writesTo enablePath (pre ++ exactTrace enableFd dutyFd 0 999) = _
    rw [writesTo_append, hpw, writesTo_enable_exactTrace, exactEnableData_999]
    rfl
  · rw [hrun]
    show writesTo enablePath (pre ++ exactTrace enableFd dutyFd 0 1000) = _
    rw [writesTo_append, hpw, writesTo_enable_exactTrace, exactEnableData_1000]
    rfl
  · exact ⟨exactState 1000, by rw [hrun], by decide, by decide⟩

/-- Witness for C2: the mock `Sysfs.allOk`; on it the first four bottom-touches make no
system call and the fifth writes "0" to the enable file. -/
theorem cycle_counting_witness :
    Sysfs.allOk.AllSucceed ∧
    touches 4 4 0 1 Sysfs.allOk [] = (Res.ret (4, 1), []) ∧
    touches 4 5 0 1 Sysfs.allOk [] = (Res.ret (0, 0), [Event.sysWrite enablePath 4 "0" 1]) :=
  ⟨allSucceed_allOk,
   ((cycle_counting Sysfs.allOk allSucceed_allOk).1 4 []).1 3 (by decide),
   ((cycle_counting Sysfs.allOk allSucceed_allOk).1 4 []).2.2⟩

theorem exactTrace_snoc (enableFd dutyFd : Int) (i n : Nat) :
    exactTrace enableFd dutyFd i (n + 1) =
      exactTrace enableFd dutyFd i n ++ exactEvents enableFd dutyFd (i + n + 1) := by
  induction n generalizing i with
  | zero => simp [exactTrace]
  | succ n ih =>
    rw [exactTrace, ih (i + 1), exactTrace, List.append_assoc]
    have : i + 1 + n + 1 = i + (n + 1) + 1 := by omega
    rw [this]

/-- C3: with every `open` and `write` succeeding and starting from `cycle = 0`,
`enabled = 1`: the bottom-touch number `n` (for every `n ≥ 1`) is entered with a counter
of at most 4; it writes "0" to the enable file and leaves `enabled = 0` exactly when `n`
is a multiple of 5, it writes "1" exactly when `n = 5k + 1` with `k ≥ 1`, the bottom-touch
right after a disabling one, and it leaves the counter at `n mod 5`.  An iteration that
is not a bottom-touch changes neither `cycle` nor `enabled`, whatever the arithmetic.
With exact arithmetic, where the bottom-touches are the iterations 200, 400, ..., after
`i` iterations the counter is `(i / 200) mod 5 ≤ 4` and the channel is disabled exactly
when `i / 200` is a positive multiple of 5, that is during one sweep of 200 iterations
out of every five; and iteration `i + 1` appends to the enable file what the bottom-touch
number `(i + 1) / 200` writes when `i + 1` is a multiple of 200, and nothing otherwise. -/
theorem every_fifth_sweep (fs : Sysfs) (hfs : fs.AllSucceed) :
    (∀ (enableFd : Int) (h : List Event) (n : Nat), 1 ≤ n →
      ∃ c e evs, touches enableFd (n - 1) 0 1 fs h = (Res.ret (c, e), h ++ evs) ∧ c ≤ 4 ∧
        bottomTouch enableFd c e fs (h ++ evs) =
          (Res.ret (n % 5, if n % 5 = 0 then 0 else 1),
            (h ++ evs) ++
              (if n % 5 = 0 then [Event.sysWrite enablePath enableFd "0" 1]
               else if n % 5 = 1 ∧ n ≠ 1 then [Event.sysWrite enablePath enableFd "1" 1]
               else []))) ∧
    (∀ (F : Type) (A : Arith F) (enableFd dutyFd : Int) (period : Nat) (s : LoopState F)
      (d : Nat) (h : List Event),
      A.toUInt32 (A.mul (A.add s.percentage s.increment) (A.ofUInt32 period)) = some d →
      reachesBottom A s = false →
      ∃ s1, loopBody A enableFd dutyFd period s fs h =
          (Res.ret s1, h ++ [Event.sysWrite dutyPath dutyFd (toString (asInt32 d))
            ((toString (asInt32 d)).length : Int), Event.sleep 20000]) ∧
        s1.cycle = s.cycle ∧ s1.enabled = s.enabled) ∧
    (∀ i, ∃ s, (pwmGlow exactArith i fs []).1 = Res.ret s ∧
      s.cycle = (i / 200) % 5 ∧ s.cycle ≤ 4 ∧
      (s.enabled = 0 ↔ 1 ≤ i / 200 ∧ (i / 200) % 5 = 0) ∧ (s.enabled = 0 ∨ s.enabled = 1)) ∧
    (∀ i, writesTo enablePath (pwmGlow exactArith (i + 1) fs []).2 =
      writesTo enablePath (pwmGlow exactArith i fs []).2 ++
        (if (i + 1) % 200 = 0 then
          (if ((i + 1) / 200) % 5 = 0 then ["0"]
           else if ((i + 1) / 200) % 5 = 1 ∧ (i + 1) / 200 ≠ 1 then ["1"] else [])
         else [])) := by
  obtain ⟨pre, enableFd, dutyFd, hpre, hrun⟩ := exact_run fs hfs
  refine ⟨fun fd h n hn => ?_, ?_, fun i => ?_, fun i => ?_⟩
  · obtain ⟨m, rfl⟩ : ∃ m, n = m + 1 := ⟨n - 1, by omega⟩
    have ht := touches_run fs hfs.2 fd m 0 h
    have hs := touch_step fs hfs.2 fd m (h ++ touchTrace fd 0 m)
    simp only [Nat.zero_mod, Nat.zero_add, le_refl, Nat.le_zero_eq, OfNat.ofNat_ne_zero,
      false_and, if_false, Nat.add_sub_cancel] at ht
    refine ⟨m % 5, _, touchTrace fd 0 m, by simpa using ht, by omega, ?_⟩
    rw [hs]
    unfold touchEvents
    have h1 : 1 ≤ m + 1 := by omega
    simp only [h1, true_and]
  · intro F A fdE fdD period s d h hd hb
    obtain ⟨p, inc, hl⟩ := loopBody_other A fs hfs.2 fdE fdD period s d h hd hb
    exact ⟨_, hl, rfl, rfl⟩
  · refine ⟨exactState i, by rw [hrun], rfl, ?_, ?_, ?_⟩
    · show (i / 200) % 5 ≤ 4
      omega
    · show (if 1 ≤ i / 200 ∧ (i / 200) % 5 = 0 then (0 : Int) else 1) = 0 ↔ _
      split <;> simp_all
    · show (if 1 ≤ i / 200 ∧ (i / 200) % 5 = 0 then (0 : Int) else 1) = 0 ∨
        (if 1 ≤ i / 200 ∧ (i / 200) % 5 = 0 then (0 : Int) else 1) = 1
      split <;> simp
  · rw [hrun, hrun]
    show writesTo enablePath (pre ++ exactTrace enableFd dutyFd 0 (i + 1)) =
      writesTo enablePath (pre ++ exactTrace enableFd dutyFd 0 i) ++ _
    rw [exactTrace_snoc, writesTo_append, writesTo_append, writesTo_append,
      writesTo_enable_exactEvents, List.append_assoc]
    simp only [Nat.zero_add]
    rfl

/-- Witness for C3: the mock `Sysfs.allOk`; after 1000 and after 1199 iterations the
channel is disabled, after 1200 it is enabled again. -/
theorem every_fifth_sweep_witness :
    Sysfs.allOk.AllSucceed ∧
    (∃ s, (pwmGlow exactArith 1199 Sysfs.allOk []).1 = Res.ret s ∧
      s.cycle = (1199 / 200) % 5 ∧ s.cycle ≤ 4 ∧
      (s.enabled = 0 ↔ 1 ≤ 1199 / 200 ∧ (1199 / 200) % 5 = 0) ∧
      (s.enabled = 0 ∨ s.enabled = 1)) :=
  ⟨allSucceed_allOk, (every_fifth_sweep Sysfs.allOk allSucceed_allOk).2.2.1 1199⟩

/-! ## Independence from the mock -/

set_option maxRecDepth 100000 in
theorem binary32_runs :
    (pwmGlow binary32 100 Sysfs.allOk []).1 =
      Res.ret { percentage := F32.fin (16777205 * 2 ^ 125), increment := binary32.INCREMENT,
                duty := 199999, cycle := 0, enabled := 1 } ∧
    (pwmGlow binary32 101 Sysfs.allOk []).1 =
      Res.ret { percentage := binary32.MAX_PERCENT, increment := binary32.NEG_INCREMENT,
                duty := 201999, cycle := 0, enabled := 1 } ∧
    (writesTo dutyPath (pwmGlow binary32 101 Sysfs.allOk []).2).getLast? = some "201999" ∧
    (pwmGlow binary32 201 Sysfs.allOk []).1 =
      Res.ret { percentage := F32.fin (45 * 2 ^ 123), increment := binary32.NEG_INCREMENT,
                duty := 0, cycle := 0, enabled := 1 } ∧
    (pwmGlow binary32 202 Sysfs.allOk []).1 = Res.undef ∧
    writesTo dutyPath (pwmGlow binary32 100 Sysfs.allOk []).2 =
      (List.range' 1 100).map (fun k =>
        toString (if k ≤ 4 ∨ (16 ≤ k ∧ k ≤ 29) then 2000 * k else 2000 * k - 1)) ∧
    writesTo dutyPath (pwmGlow binary32 5 Sysfs.allOk []).2 =
      ["2000", "4000", "6000", "8000", "9999"] ∧
    (writesTo dutyPath (pwmGlow binary32 201 Sysfs.allOk []).2).drop 101 =
      (List.range' 1 100).map (fun j => toString (2000 * (100 - j))) := by
  decide!

theorem binary32_run_100 :
    (pwmGlow binary32 100 Sysfs.allOk []).1 =
      Res.ret { percentage := F32.fin (16777205 * 2 ^ 125), increment := binary32.INCREMENT,
                duty := 199999, cycle := 0, enabled := 1 } :=
  binary32_runs.1

theorem binary32_run_101 :
    (pwmGlow binary32 101 Sysfs.allOk []).1 =
      Res.ret { percentage := binary32.MAX_PERCENT, increment := binary32.NEG_INCREMENT,
                duty := 201999, cycle := 0, enabled := 1 } ∧
    (writesTo dutyPath (pwmGlow binary32 101 Sysfs.allOk []).2).getLast? = some "201999" :=
  ⟨binary32_runs.2.1, binary32_runs.2.2.1⟩

theorem binary32_run_201 :
    (pwmGlow binary32 201 Sysfs.allOk []).1 =
      Res.ret { percentage := F32.fin (45 * 2 ^ 123), increment := binary32.NEG_INCREMENT,
                duty := 0, cycle := 0, enabled := 1 } :=
  binary32_runs.2.2.2.1

theorem binary32_run_202 : (pwmGlow binary32 202 Sysfs.allOk []).1 = Res.undef :=
  binary32_runs.2.2.2.2.1

theorem binary32_duty_100 :
    writesTo dutyPath (pwmGlow binary32 100 Sysfs.allOk []).2 =
      (List.range' 1 100).map (fun k =>
        toString (if k ≤ 4 ∨ (16 ≤ k ∧ k ≤ 29) then 2000 * k else 2000 * k - 1)) :=
  binary32_runs.2.2.2.2.2.1

theorem binary32_nearest_53 :
    2 * (100 * (8891924 * 2 ^ 125) - 53 * 2 ^ 149 : Int).natAbs ≤ 100 * 2 ^ 125 ∧
    binary32.toUInt32 (binary32.mul (F32.fin (8891924 * 2 ^ 125)) (binary32.ofUInt32 200000)) =
      some 105999 := by
  decide!

theorem binary32_step_101 (s : LoopState F32)
    (hs : s = { percentage := F32.fin (16777205 * 2 ^ 125), increment := binary32.INCREMENT,
                duty := 199999, cycle := 0, enabled := 1 }) :
    binary32.le binary32.MAX_PERCENT s.percentage = false ∧
    binary32.le (binary32.add s.percentage s.increment) binary32.MAX_PERCENT = false ∧
    binary32.toUInt32 (binary32.mul (binary32.add s.percentage s.increment)
      (binary32.ofUInt32 200000)) = some 201999 := by
  subst hs
  decide!

theorem binary32_step_202 (s : LoopState F32)
    (hs : s = { percentage := F32.fin (45 * 2 ^ 123), increment := binary32.NEG_INCREMENT,
                duty := 0, cycle := 0, enabled := 1 }) :
    binary32.le binary32.MIN_PERCENT (binary32.add s.percentage s.increment) = false := by
  subst hs
  decide!

/-- C1 fails on the code: in single precision, with every `open` and `write`
succeeding, the loop started by `pwmGlow` reaches after 100 iterations a percentage
still below 1.0 (16777205 * 2^-24, about 0.99999934), so iteration 101 computes a
percentage above 1.0 (8472489 * 2^-23, about 1.0099994) and writes the duty 201999, which
is larger than the period 200000, before the clamp.  After 201 iterations the percentage
is still above 0.0 (45 * 2^-26), so iteration 202 computes a negative percentage, whose
conversion to `uint32_t` is undefined. -/
theorem ramp_invariant_fails :
    (∃ s, (pwmGlow binary32 100 Sysfs.allOk []).1 = Res.ret s ∧
      binary32.le binary32.MAX_PERCENT s.percentage = false ∧
      binary32.le (binary32.add s.percentage s.increment) binary32.MAX_PERCENT = false ∧
      binary32.toUInt32 (binary32.mul (binary32.add s.percentage s.increment)
        (binary32.ofUInt32 200000)) = some 201999) ∧
    (writesTo dutyPath (pwmGlow binary32 101 Sysfs.allOk []).2).getLast? = some "201999" ∧
    (∃ s, (pwmGlow binary32 101 Sysfs.allOk []).1 = Res.ret s ∧ s.duty = 201999 ∧
      200 * 1000 < s.duty) ∧
    (∃ s, (pwmGlow binary32 201 Sysfs.allOk []).1 = Res.ret s ∧
      binary32.le binary32.MIN_PERCENT (binary32.add s.percentage s.increment) = false) ∧
    (pwmGlow binary32 202 Sysfs.allOk []).1 = Res.undef := by
  exact ⟨⟨_, binary32_run_100, binary32_step_101 _ rfl⟩, binary32_run_101.2,
    ⟨_, binary32_run_101.1, rfl, by decide⟩, ⟨_, binary32_run_201, binary32_step_202 _ rfl⟩,
    binary32_run_202⟩

/-- C5 fails on the code: in single precision the first five duty values that the loop
writes are 2000, 4000, 6000, 8000 and 9999, not 10000; and even for the single-precision
number nearest to 53/100 (8891924 * 2^-24, within half a unit in the last place of
53/100) the duty `(uint32_t)(percentage * period)` is 105999, not 106000. -/
theorem duty_sequence_counterexample :
    writesTo dutyPath (pwmGlow binary32 5 Sysfs.allOk []).2 =
      ["2000", "4000", "6000", "8000", "9999"] ∧
    2 * (100 * (8891924 * 2 ^ 125) - 53 * 2 ^ 149 : Int).natAbs ≤ 100 * 2 ^ 125 ∧
    binary32.toUInt32 (binary32.mul (F32.fin (8891924 * 2 ^ 125)) (binary32.ofUInt32 200000)) =
      some 105999 :=
  ⟨binary32_runs.2.2.2.2.2.2.1, binary32_nearest_53⟩

/-- C5 as amended: with period 200000, in exact arithmetic the duty
`truncate(percentage * period)` for `percentage = k/100` is `2000 * k` for every `k` in
`0..100`; in the single-precision arithmetic of the code, the duty written in iteration
`k` (`k = 1..100`) is `2000 * k` for `k` in `1..4` and `16..29` and `2000 * k - 1` for
every other `k`. -/
theorem duty_sequence_amended :
    (∀ k : Nat, k ≤ 100 →
      exactArith.toUInt32 (exactArith.mul ((k : ℚ) / 100) (exactArith.ofUInt32 200000)) =
        some (2000 * k)) ∧
    writesTo dutyPath (pwmGlow binary32 100 Sysfs.allOk []).2 =
      (List.range' 1 100).map (fun k =>
        toString (if k ≤ 4 ∨ (16 ≤ k ∧ k ≤ 29) then 2000 * k else 2000 * k - 1)) :=
  ⟨exact_duty, binary32_duty_100⟩

/-- Witness for C5 as amended: `k = 53` in exact arithmetic. -/
theorem duty_sequence_amended_witness :
    exactArith.toUInt32 (exactArith.mul (((53 : Nat) : ℚ) / 100) (exactArith.ofUInt32 200000)) =
      some (2000 * 53) :=
  duty_sequence_amended.1 53 (by decide)

theorem bitLengthAux_le (fuel : Nat) : ∀ n k : Nat, n < 2 ^ k → bitLengthAux fuel n ≤ k := by
  induction fuel with
  | zero => intro n k _; simp [bitLengthAux]
  | succ fuel ih =>
    intro n k hn
    unfold bitLengthAux
    by_cases h0 : n = 0
    · simp [h0]
    · rw [if_neg h0]
      by_cases h64 : 18446744073709551616 ≤ n
      · rw [if_pos h64]
        have hk : 64 ≤ k := by
          by_contra hlt
          have : 2 ^ k ≤ 2 ^ 64 := Nat.pow_le_pow_right (by decide) (by omega)
          have e : (2 : Nat) ^ 64 = 18446744073709551616 := by norm_num
          omega
        have hdiv : n / 18446744073709551616 < 2 ^ (k - 64) := by
          apply Nat.div_lt_of_lt_mul
          have e : (2 : Nat) ^ 64 = 18446744073709551616 := by norm_num
          rw [← e, ← Nat.pow_add]
          have : 64 + (k - 64) = k := by omega
          rw [this]
          exact hn
        have := ih _ _ hdiv
        omega
      · rw [if_neg h64]
        by_cases h8 : 256 ≤ n
        · rw [if_pos h8]
          have hk : 8 ≤ k := by
            by_contra hlt
            have : 2 ^ k ≤ 2 ^ 8 := Nat.pow_le_pow_right (by decide) (by omega)
            have e : (2 : Nat) ^ 8 = 256 := by norm_num
            omega
          have hdiv : n / 256 < 2 ^ (k - 8) := by
            apply Nat.div_lt_of_lt_mul
            have e : (2 : Nat) ^ 8 = 256 := by norm_num
            rw [← e, ← Nat.pow_add]
            have : 8 + (k - 8) = k := by omega
            rw [this]
            exact hn
          have := ih _ _ hdiv
          omega
        · rw [if_neg h8]
          have hk : 1 ≤ k := by
            by_contra hlt
            have : k = 0 := by omega
            subst this
            simp at hn
            exact h0 hn
          have hdiv : n / 2 < 2 ^ (k - 1) := by
            apply Nat.div_lt_of_lt_mul
            have : 2 * 2 ^ (k - 1) = 2 ^ k := by
              rw [← Nat.pow_succ']
              congr 1
              omega
            rw [this]
            exact hn
          have := ih _ _ hdiv
          omega

theorem bitLengthAux_ge (fuel : Nat) : ∀ n : Nat, 1 ≤ n → 2 ^ bitLengthAux fuel n ≤ 2 * n := by
  induction fuel with
  | zero => intro n hn; simp [bitLengthAux]; omega
  | succ fuel ih =>
    intro n hn
    unfold bitLengthAux
    have h0 : ¬ n = 0 := by omega
    rw [if_neg h0]
    by_cases h64 : 18446744073709551616 ≤ n
    · rw [if_pos h64, Nat.pow_add]
      have hq : 1 ≤ n / 18446744073709551616 := (Nat.one_le_div_iff (by decide)).2 h64
      have h1 := ih _ hq
      have e : (2 : Nat) ^ 64 = 18446744073709551616 := by norm_num
      rw [e]
      have h2 : n / 18446744073709551616 * 18446744073709551616 ≤ n := Nat.div_mul_le_self _ _
      calc 2 ^ bitLengthAux fuel (n / 18446744073709551616) * 18446744073709551616
          ≤ 2 * (n / 18446744073709551616) * 18446744073709551616 :=
            Nat.mul_le_mul_right _ h1
        _ = 2 * (n / 18446744073709551616 * 18446744073709551616) := by ring
        _ ≤ 2 * n := Nat.mul_le_mul_left _ h2
    · rw [if_neg h64]
      by_cases h8 : 256 ≤ n
      · rw [if_pos h8, Nat.pow_add]
        have hq : 1 ≤ n / 256 := (Nat.one_le_div_iff (by decide)).2 h8
        have h1 := ih _ hq
        have e : (2 : Nat) ^ 8 = 256 := by norm_num
        rw [e]
        have h2 : n / 256 * 256 ≤ n := Nat.div_mul_le_self _ _
        calc 2 ^ bitLengthAux fuel (n / 256) * 256
            ≤ 2 * (n / 256) * 256 := Nat.mul_le_mul_right _ h1
          _ = 2 * (n / 256 * 256) := by ring
          _ ≤ 2 * n := Nat.mul_le_mul_left _ h2
      · rw [if_neg h8, Nat.pow_add]
        by_cases h2 : n / 2 = 0
        · have hb : bitLengthAux fuel (n / 2) = 0 := by
            rw [h2]
            cases fuel <;> simp [bitLengthAux]
          rw [hb]
          omega
        · have h1 := ih (n / 2) (by omega)
          have h3 : n / 2 * 2 ≤ n := Nat.div_mul_le_self _ _
          calc 2 ^ bitLengthAux fuel (n / 2) * 2 ^ 1
              ≤ 2 * (n / 2) * 2 ^ 1 := Nat.mul_le_mul_right _ h1
            _ = 2 * (n / 2 * 2) := by ring
            _ ≤ 2 * n := Nat.mul_le_mul_left _ h3

theorem bitLengthAux_lt (fuel : Nat) : ∀ n : Nat, n ≤ fuel → n < 2 ^ bitLengthAux fuel n := by
  induction fuel with
  | zero =>
    intro n hn
    have : n = 0 := by omega
    subst this
    simp [bitLengthAux]
  | succ fuel ih =>
    intro n hn
    unfold bitLengthAux
    by_cases h0 : n = 0
    · simp [h0]
    · rw [if_neg h0]
      have hpos : 0 < n := by omega
      by_cases h64 : 18446744073709551616 ≤ n
      · rw [if_pos h64, Nat.pow_add]
        have hlt : n / 18446744073709551616 < n := Nat.div_lt_self hpos (by decide)
        have h1 := ih (n / 18446744073709551616) (by omega)
        have e : (2 : Nat) ^ 64 = 18446744073709551616 := by norm_num
        rw [e]
        exact (Nat.div_lt_iff_lt_mul (by decide)).1 h1
      · rw [if_neg h64]
        by_cases h8 : 256 ≤ n
        · rw [if_pos h8, Nat.pow_add]
          have hlt : n / 256 < n := Nat.div_lt_self hpos (by decide)
          have h1 := ih (n / 256) (by omega)
          have e : (2 : Nat) ^ 8 = 256 := by norm_num
          rw [e]
          exact (Nat.div_lt_iff_lt_mul (by decide)).1 h1
        · rw [if_neg h8, Nat.pow_add]
          have hlt : n / 2 < n := Nat.div_lt_self hpos (by decide)
          have h1 := ih (n / 2) (by omega)
          exact (Nat.div_lt_iff_lt_mul (by decide)).1 h1

/-- The function `bitLength` counts binary digits: `2^(bitLength n - 1) ≤ n < 2^(bitLength n)`
for `n ≥ 1`. -/
theorem bitLength_spec (n : Nat) (hn : 1 ≤ n) :
    2 ^ (bitLength n - 1) ≤ n ∧ n < 2 ^ bitLength n := by
  have h1 := bitLengthAux_ge n n hn
  have h2 := bitLengthAux_lt n n (Nat.le_refl n)
  unfold bitLength
  refine ⟨?_, h2⟩
  have hb : 1 ≤ bitLengthAux n n := by
    by_contra hlt
    have : bitLengthAux n n = 0 := by omega
    rw [this] at h2
    simp at h2
    omega
  have h3 : 2 * 2 ^ (bitLengthAux n n - 1) = 2 ^ bitLengthAux n n := by
    rw [← Nat.pow_succ']
    congr 1
    omega
  omega

/-- The function `F32.round` rounds to nearest, ties to even, with 24 significant bits
and a quantum of at least one unit: with `t = max (bitLength |N| - 24) s`, the result has
magnitude `q * 2^t` (in the units of `N`) for a `q ≤ 2^24` with `|q * 2^t - |N|| ≤ 2^t / 2`,
and `q` is even when the distance is exactly `2^t / 2`. -/
theorem round_nearest_even (N : Int) (s : Nat) :
    ∃ q : Nat,
      2 * N.natAbs ≤ 2 * (q * 2 ^ max (bitLength N.natAbs - 24) s) +
        2 ^ max (bitLength N.natAbs - 24) s ∧
      2 * (q * 2 ^ max (bitLength N.natAbs - 24) s) ≤
        2 * N.natAbs + 2 ^ max (bitLength N.natAbs - 24) s ∧
      ((2 * N.natAbs = 2 * (q * 2 ^ max (bitLength N.natAbs - 24) s) +
          2 ^ max (bitLength N.natAbs - 24) s ∨
        2 * (q * 2 ^ max (bitLength N.natAbs - 24) s) =
          2 * N.natAbs + 2 ^ max (bitLength N.natAbs - 24) s) → q % 2 = 0) ∧
      q ≤ 2 ^ 24 ∧
      F32.round N s =
        if 2 ^ 128 * 2 ^ 149 ≤ q * 2 ^ (max (bitLength N.natAbs - 24) s - s)
        then F32.inf (decide (N < 0))
        else F32.fin (if N < 0
          then -((q * 2 ^ (max (bitLength N.natAbs - 24) s - s) : Nat) : Int)
          else ((q * 2 ^ (max (bitLength N.natAbs - 24) s - s) : Nat) : Int)) := by
  generalize hM : N.natAbs = M
  generalize ht : max (bitLength M - 24) s = t
  have hdm : M = M / 2 ^ t * 2 ^ t + M % 2 ^ t := by
    rw [Nat.mul_comm]
    exact (Nat.div_add_mod M (2 ^ t)).symm
  have hr : M % 2 ^ t < 2 ^ t := Nat.mod_lt _ (Nat.pos_pow_of_pos _ (by decide))
  have hq24 : M / 2 ^ t < 2 ^ 24 := by
    apply (Nat.div_lt_iff_lt_mul (Nat.pos_pow_of_pos _ (by decide))).2
    rw [← Nat.pow_add]
    by_cases hM0 : M = 0
    · rw [hM0]
      exact Nat.pos_pow_of_pos _ (by decide)
    · have h2 := (bitLength_spec M (by omega)).2
      have hle : bitLength M ≤ 24 + t := by
        have : bitLength M - 24 ≤ t := by rw [← ht]; exact Nat.le_max_left _ _
        omega
      exact Nat.lt_of_lt_of_le h2 (Nat.pow_le_pow_right (by decide) hle)
  have hround : F32.round N s =
      if 2 ^ 128 * 2 ^ 149 ≤
          (if (decide (t ≠ 0) && (decide (2 ^ (t - 1) < M % 2 ^ t) ||
              (decide (M % 2 ^ t = 2 ^ (t - 1)) && decide (M / 2 ^ t % 2 = 1)))) = true
            then M / 2 ^ t + 1 else M / 2 ^ t) * 2 ^ (t - s)
      then F32.inf (decide (N < 0))
      else F32.fin (if N < 0
        then -(((if (decide (t ≠ 0) && (decide (2 ^ (t - 1) < M % 2 ^ t) ||
              (decide (M % 2 ^ t = 2 ^ (t - 1)) && decide (M / 2 ^ t % 2 = 1)))) = true
            then M / 2 ^ t + 1 else M / 2 ^ t) * 2 ^ (t - s) : Nat) : Int)
        else (((if (decide (t ≠ 0) && (decide (2 ^ (t - 1) < M % 2 ^ t) ||
              (decide (M % 2 ^ t = 2 ^ (t - 1)) && decide (M / 2 ^ t % 2 = 1)))) = true
            then M / 2 ^ t + 1 else M / 2 ^ t) * 2 ^ (t - s) : Nat) : Int)) := by
    unfold F32.round
    simp only [hM, ht]
  rw [hround]
  generalize hq0 : M / 2 ^ t = q0 at *
  generalize hr0 : M % 2 ^ t = r at *
  by_cases ht0 : t = 0
  · subst ht0
    have hr1 : r = 0 := by
      simp at hr
      exact hr
    refine ⟨q0, ?_, ?_, ?_, by omega, ?_⟩
    · simp only [Nat.pow_zero] at hdm ⊢
      omega
    · simp only [Nat.pow_zero] at hdm ⊢
      omega
    · simp only [Nat.pow_zero] at hdm ⊢
      omega
    · simp
  · have hP : 2 ^ t = 2 * 2 ^ (t - 1) := by
      rw [← Nat.pow_succ']
      congr 1
      omega
    generalize hH : 2 ^ (t - 1) = H at *
    generalize hT : 2 ^ t = T at *
    have hmul : ∀ x : Nat, x * T = 2 * (x * H) := by
      intro x
      rw [hP]
      ring
    by_cases hup : (decide (t ≠ 0) && (decide (H < r) ||
        (decide (r = H) && decide (q0 % 2 = 1)))) = true
    · rw [if_pos hup]
      simp only [Bool.and_eq_true, Bool.or_eq_true, decide_eq_true_eq] at hup
      have hq1 := hmul (q0 + 1)
      have hq2 := hmul q0
      have hq3 : (q0 + 1) * H = q0 * H + H := by ring
      refine ⟨q0 + 1, by omega, by omega, ?_, by omega, rfl⟩
      intro hh
      rcases hup.2 with h1 | ⟨h1, h2⟩
      · omega
      · omega
    · rw [if_neg hup]
      simp only [Bool.and_eq_true, Bool.or_eq_true, decide_eq_true_eq, not_and, not_or] at hup
      have hup2 := hup ht0
      have hq2 := hmul q0
      refine ⟨q0, by omega, by omega, ?_, by omega, rfl⟩
      intro hh
      have hrH : r = H := by omega
      have := hup2.2 hrH
      omega

/-- The `double` literal `0.01`: `INCREMENT_mant * 2^(-INCREMENT_exp)` is a binary64
number (a 53-bit significand) within half a unit in the last place of 1/100. -/
theorem INCREMENT_nearest :
    2 ^ 52 ≤ INCREMENT_mant ∧ INCREMENT_mant < 2 ^ 53 ∧
    2 * (100 * INCREMENT_mant - 2 ^ INCREMENT_exp).natAbs ≤ 100 := by
  decide

theorem round_zero_spec (N : Int) :
    ∃ mag : Nat,
      N.natAbs / 2 ^ (bitLength N.natAbs - 24) * 2 ^ (bitLength N.natAbs - 24) ≤ mag ∧
      mag ≤ (N.natAbs / 2 ^ (bitLength N.natAbs - 24) + 1) * 2 ^ (bitLength N.natAbs - 24) ∧
      F32.round N 0 =
        if 2 ^ 128 * 2 ^ 149 ≤ mag then F32.inf (decide (N < 0))
        else F32.fin (if N < 0 then -(mag : Int) else (mag : Int)) := by
  unfold F32.round
  simp only [Nat.sub_zero, Nat.max_zero]
  refine ⟨_, ?_, ?_, rfl⟩
  · split
    · exact Nat.mul_le_mul_right _ (Nat.le_succ _)
    · exact Nat.le_refl _
  · split
    · exact Nat.le_refl _
    · exact Nat.mul_le_mul_right _ (Nat.le_succ _)

theorem round_pos_not_le_zero (N : Int) (hN : 0 < N) :
    F32.le (F32.round N 0) (F32.fin 0) = false := by
  obtain ⟨mag, hlo, _, hr⟩ := round_zero_spec N
  have hM : 1 ≤ N.natAbs := by omega
  have hb := bitLengthAux_ge N.natAbs N.natAbs hM
  have hpow : 2 ^ (bitLength N.natAbs - 24) ≤ N.natAbs := by
    unfold bitLength
    by_cases h24 : bitLengthAux N.natAbs N.natAbs ≤ 24
    · have : bitLengthAux N.natAbs N.natAbs - 24 = 0 := by omega
      rw [this]
      simpa using hM
    · have h1 : 2 ^ (bitLengthAux N.natAbs N.natAbs - 24) ≤
          2 ^ (bitLengthAux N.natAbs N.natAbs - 1) :=
        Nat.pow_le_pow_right (by decide) (by omega)
      have h2 : 2 * 2 ^ (bitLengthAux N.natAbs N.natAbs - 1) =
          2 ^ bitLengthAux N.natAbs N.natAbs := by
        rw [← Nat.pow_succ']
        congr 1
        omega
      omega
  have hq : 1 ≤ N.natAbs / 2 ^ (bitLength N.natAbs - 24) :=
    (Nat.one_le_div_iff (Nat.pos_pow_of_pos _ (by decide))).2 hpow
  have hmag : 1 ≤ mag := by
    have h1 : 1 ≤ 2 ^ (bitLength N.natAbs - 24) := Nat.one_le_two_pow
    calc 1 = 1 * 1 := rfl
      _ ≤ N.natAbs / 2 ^ (bitLength N.natAbs - 24) * 2 ^ (bitLength N.natAbs - 24) :=
        Nat.mul_le_mul hq h1
      _ ≤ mag := hlo
  rw [hr]
  have hneg : ¬ N < 0 := by omega
  have hd : decide (N < 0) = false := decide_eq_false hneg
  split
  · rw [hd]
    rfl
  · have : ¬ ((mag : Int) ≤ 0) := by omega
    simp only [F32.le]
    exact decide_eq_false this

theorem round_lt_one (N : Int) (hN : N ≤ 2 ^ 149 - 2 ^ 125 - 1) :
    F32.le (F32.fin (2 ^ 149)) (F32.round N 0) = false := by
  obtain ⟨mag, _, hhi, hr⟩ := round_zero_spec N
  rw [hr]
  by_cases hneg : N < 0
  · have hd : decide (N < 0) = true := decide_eq_true hneg
    split
    · rw [hd]
      rfl
    · have h149 : (0 : Int) < 2 ^ 149 := by positivity
      have : ¬ ((2 : Int) ^ 149 ≤ -(mag : Int)) := by omega
      simp only [F32.le]
      exact decide_eq_false this
  · have hM : (N.natAbs : Int) = N := Int.natAbs_of_nonneg (by omega)
    have hlt : N.natAbs < 2 ^ 149 := by
      have : (N.natAbs : Int) < ((2 ^ 149 : Nat) : Int) := by
        rw [hM]
        push_cast
        have : (0 : Int) < 2 ^ 125 := by positivity
        omega
      exact_mod_cast this
    have hbl : bitLength N.natAbs ≤ 149 := bitLengthAux_le _ _ _ hlt
    have hpow : 2 ^ (bitLength N.natAbs - 24) ≤ 2 ^ 125 :=
      Nat.pow_le_pow_right (by decide) (by omega)
    have hdm : N.natAbs / 2 ^ (bitLength N.natAbs - 24) * 2 ^ (bitLength N.natAbs - 24) ≤
        N.natAbs := Nat.div_mul_le_self _ _
    have hmag : mag ≤ N.natAbs + 2 ^ 125 := by
      have : (N.natAbs / 2 ^ (bitLength N.natAbs - 24) + 1) * 2 ^ (bitLength N.natAbs - 24) =
          N.natAbs / 2 ^ (bitLength N.natAbs - 24) * 2 ^ (bitLength N.natAbs - 24) +
            2 ^ (bitLength N.natAbs - 24) := by ring
      omega
    have hmagI : (mag : Int) < 2 ^ 149 := by
      have h1 : (mag : Int) ≤ (N.natAbs : Int) + ((2 ^ 125 : Nat) : Int) := by exact_mod_cast hmag
      rw [hM] at h1
      push_cast at h1
      omega
    have hlt2 : N.natAbs + 2 ^ 125 < 2 ^ 149 := by
      have : ((N.natAbs + 2 ^ 125 : Nat) : Int) < ((2 ^ 149 : Nat) : Int) := by
        rw [Nat.cast_add, hM]
        push_cast
        omega
      exact_mod_cast this
    have hmagN : mag < 2 ^ 149 := Nat.lt_of_le_of_lt hmag hlt2
    have hsmall : ¬ 2 ^ 128 * 2 ^ 149 ≤ mag := by omega
    rw [if_neg hsmall, if_neg hneg]
    have : ¬ ((2 : Int) ^ 149 ≤ (mag : Int)) := by omega
    simp only [F32.le]
    exact decide_eq_false this

/-! ## Direction reversal -/

theorem bottomTouch_returns (fs : Sysfs)
    (hw : ∀ h path fd data, fs.writeRet h path fd data = (data.length : Int))
    (enableFd : Int) (cycle : Nat) (enabled : Int) (h : List Event) :
    ∃ r evs, bottomTouch enableFd cycle enabled fs h = (Res.ret r, h ++ evs) := by
  rw [bottomTouch_run fs hw]
  split
  · exact ⟨_, _, rfl⟩
  · split
    · exact ⟨_, _, rfl⟩
    · exact ⟨((cycle + 1) % 4294967296, enabled), [], by rw [List.append_nil]⟩

theorem loopBody_bounds {F : Type} (A : Arith F) (fs : Sysfs)
    (hw : ∀ h path fd data, fs.writeRet h path fd data = (data.length : Int))
    (enableFd dutyFd : Int) (period : Nat) (s : LoopState F) (d : Nat) (h : List Event)
    (hd : A.toUInt32 (A.mul (A.add s.percentage s.increment) (A.ofUInt32 period)) = some d) :
    ∃ s1 evs, loopBody A enableFd dutyFd period s fs h = (Res.ret s1, h ++ evs) ∧
      (reachesTop A s = true → s1.percentage = A.MAX_PERCENT ∧ s1.increment = A.NEG_INCREMENT) ∧
      (reachesBottom A s = true → s1.percentage = A.MIN_PERCENT ∧ s1.increment = A.INCREMENT) ∧
      (reachesTop A s = false → reachesBottom A s = false →
        s1.percentage = A.add s.percentage s.increment ∧ s1.increment = s.increment) := by
  by_cases hb : reachesBottom A s = true
  · have hnt : ¬ reachesTop A s = true := by
      unfold reachesBottom at hb
      unfold reachesTop
      simp only [Bool.and_eq_true, Bool.not_eq_true'] at hb
      rw [hb.1]
      decide
    obtain ⟨r, evs, hr⟩ := bottomTouch_returns fs hw enableFd s.cycle s.enabled
      (h ++ [Event.sysWrite dutyPath dutyFd (toString (asInt32 d))
        ((toString (asInt32 d)).length : Int), Event.sleep 20000])
    have hrun : loopBody A enableFd dutyFd period s fs h =
        (Res.ret { percentage := A.MIN_PERCENT, increment := A.INCREMENT, duty := d,
                   cycle := r.1, enabled := r.2 },
          h ++ ([Event.sysWrite dutyPath dutyFd (toString (asInt32 d))
            ((toString (asInt32 d)).length : Int), Event.sleep 20000] ++ evs)) := by
      rw [loopBody_bottom A fs hw enableFd dutyFd period s d h hd hb, bind_ret hr, pure_run,
        List.append_assoc]
    refine ⟨_, _, hrun, fun ht => absurd ht hnt, fun _ => ⟨rfl, rfl⟩, fun _ hb2 => ?_⟩
    rw [hb] at hb2
    exact absurd hb2 (by decide)
  · have hb2 : reachesBottom A s = false := by
      cases hx : reachesBottom A s
      · rfl
      · exact absurd hx hb
    unfold loopBody
    simp only [hd, bind_run, sysWrite, hw, ne_eq, not_true_eq_false, if_false, pure_run, usleep,
      List.append_assoc, List.singleton_append]
    by_cases ht : A.le A.MAX_PERCENT (A.add s.percentage s.increment) = true
    · simp only [ht, if_true, pure_run]
      refine ⟨_, _, rfl, fun _ => ⟨rfl, rfl⟩, fun hb3 => absurd hb3 hb, fun ht2 _ => ?_⟩
      unfold reachesTop at ht2
      rw [ht] at ht2
      exact absurd ht2 (by decide)
    · have hm : ¬ A.le (A.add s.percentage s.increment) A.MIN_PERCENT = true := by
        intro hm
        unfold reachesBottom at hb2
        simp [ht, hm] at hb2
      simp only [ht, hm, if_false, pure_run]
      refine ⟨_, _, rfl, fun ht2 => ?_, fun hb3 => absurd hb3 hb, fun _ _ => ⟨rfl, rfl⟩⟩
      unfold reachesTop at ht2
      exact absurd ht2 ht

theorem binary32_incr_val :
    binary32.INCREMENT = F32.fin (10737418 * 2 ^ 119) ∧
    binary32.NEG_INCREMENT = F32.fin (-(10737418 * 2 ^ 119)) := by
  decide!

theorem binary32_add_fin (a b : Int) :
    binary32.add (F32.fin a) (F32.fin b) = F32.round (a + b) 0 := rfl

theorem binary32_le_max (x : F32) :
    binary32.le binary32.MAX_PERCENT x = F32.le (F32.fin (2 ^ 149)) x := rfl

theorem binary32_le_min (x : F32) :
    binary32.le x binary32.MIN_PERCENT = F32.le x (F32.fin 0) := rfl

theorem binary32_ramp_direction (s : LoopState F32) (u : Int)
    (hp : s.percentage = F32.fin u) (h0 : 0 ≤ u) (h1 : u ≤ 2 ^ 149)
    (hi : s.increment = binary32.INCREMENT ∨ s.increment = binary32.NEG_INCREMENT) :
    (reachesTop binary32 s = true → s.increment = binary32.INCREMENT) ∧
    (reachesBottom binary32 s = true → s.increment = binary32.NEG_INCREMENT) := by
  have hc : (10737418 * 2 ^ 119 : Int) = 2 ^ 125 + 10737354 * 2 ^ 119 := by norm_num
  have hpos : (0 : Int) < 10737354 * 2 ^ 119 := by positivity
  have hpos2 : (0 : Int) < 2 ^ 125 := by positivity
  constructor
  · intro ht
    rcases hi with hi | hi
    · exact hi
    · exfalso
      unfold reachesTop at ht
      rw [hp, hi, binary32_incr_val.2, binary32_add_fin, binary32_le_max,
        round_lt_one (u + -(10737418 * 2 ^ 119)) (by omega)] at ht
      exact absurd ht (by decide)
  · intro hb
    rcases hi with hi | hi
    · exfalso
      unfold reachesBottom at hb
      rw [hp, hi, binary32_incr_val.1, binary32_add_fin, binary32_le_min,
        round_pos_not_le_zero (u + 10737418 * 2 ^ 119) (by omega), Bool.and_false] at hb
      exact absurd hb (by decide)
    · exact hi

end PwmGlow
